import Mathlib

/-!
Verification development for the DataQueue engine (src/src/dataqueue.c).

The persistent state of one queue, as the engine reads it back from disk at
the start of every mutating operation, is modelled by `QueueState`: the parsed
`.header` record, the 256-slot `.lut` cache (a function from slot index to the
four tag bytes of that slot), and the set of payload files in the queue
directory (an association list from file name to file content, both as byte
lists).  Machine integers are modelled as `Nat` with explicit `% 2 ^ w`
reductions exactly where the C types wrap (`uint16_t reference_count`,
`uint8_t num_of_entries`).  The filesystem adaptor (FSAL, declared external in
the spec) is modelled per its interface: opening an existing file for reading
finds it by name, writing a created file replaces its content, deleting
removes it.

The ring-level functions (`ringEnqueue`, `ringDequeue`, `ringSeek`,
`ringGetEntry`) are literal translations of the bodies of
`DataQ_FifoEnqueue`, `DataQ_FifoDequeue`, `DataQ_FifoSeek` and
`DataQ_FifoGetEntry` after the argument / handle / directory / lock-file
guards have passed and the header and LUT have been read.  The operation-level
functions (`DataQ_FifoOpen`, `DataQ_FifoClose`, `DataQ_FifoEnqueue`, ...)
add those guards over a process-local handle table and a lock-file
environment, following the C control flow line by line.
-/

namespace DataQueue

/-! Status codes from dataqueue.h. -/

def CODE_STATUS_OK : Nat := 0
def CODE_ERROR_INVALID_ARG : Nat := 1
def CODE_ERROR_INVALID_HANDLE : Nat := 2
def CODE_ERROR_INVALID_SEEK : Nat := 3
def CODE_ERROR_QUEUE_EXISTS : Nat := 4
def CODE_ERROR_QUEUE_MISSING : Nat := 5
def CODE_ERROR_QUEUE_OPENED : Nat := 6
def CODE_ERROR_QUEUE_CLOSED : Nat := 7
def CODE_ERROR_QUEUE_IS_FULL : Nat := 8
def CODE_ERROR_QUEUE_IS_EMPTY : Nat := 9
def CODE_ERROR_QUEUE_IS_BUSY : Nat := 10
def CODE_ERROR_QUEUE_READ_ONLY : Nat := 11
def CODE_ERROR_QUEUE_WRITE_ONLY : Nat := 12
def CODE_ERROR_QUEUE_NOT_SEEKABLE : Nat := 13
def CODE_ERROR_FS_ACCESS_FAIL : Nat := 14
def CODE_ERROR_HANDLE_NOT_AVAIL : Nat := 15

/-! Flags, access types, access modes and seek types from dataqueue.h. -/

def FLAGS_MESSAGE_LOG : Nat := 1
def FLAGS_RANDOM_ACCESS : Nat := 2

def ACCESS_TYPE_READ_ONLY : Nat := 0
def ACCESS_TYPE_WRITE_ONLY : Nat := 1
def ACCESS_TYPE_READ_WRITE : Nat := 2
def ACCESS_TYPE_MAX : Nat := 3

def ACCESS_MODE_UNPACKED : Nat := 0
def ACCESS_MODE_BINARY_PACKED : Nat := 1
def ACCESS_MODE_MAX : Nat := 3

def SEEK_TYPE_HEAD : Nat := 0
def SEEK_TYPE_TAIL : Nat := 1
def SEEK_TYPE_POSITION : Nat := 2
def SEEK_TYPE_MAX : Nat := 3

/-! Platform constants: psl/linux/psl.h maps DATA_QUEUE_LUT_ENTRY_SIZE to
PSL_LUT_ENTRY_SIZE = 4 and the handle-list bound to 10; the invalid-handle
sentinel PSL_FILE_HANDLE_INVALID is 0. -/

def DATA_QUEUE_LUT_ENTRY_SIZE : Nat := 4
def DATA_QUEUE_FILE_HANDLE_LIST_MAX : Nat := 10
def DATA_QUEUE_FILE_HANDLE_INVALID : Int := 0
def DATAQ_LUT_FILE_SIZE_MAX : Nat := 256 * DATA_QUEUE_LUT_ENTRY_SIZE

/-- Byte strings: file names, file contents, tags are lists of byte values. -/
abbrev Bytes := List Nat

/-- The DataQ_Hdr_t record of dataqueue.h, with each C integer field as a Nat.
`reference_count` is a uint16_t and `num_of_entries` a uint8_t in C; the
operations below reduce them mod 2^16 / 2^8 exactly where C overflows. -/
structure DataQ_Hdr where
  size : Nat
  max_entry_size : Nat
  max_entries : Nat
  num_of_entries : Nat
  head_lut_offs : Nat
  tail_lut_offs : Nat
  seek_lut_offs : Nat
  reference_count : Nat
  flags : Nat
deriving Repr, DecidableEq

/-- One queue's persistent state: parsed header, the LUT cache (slot index to
the DATA_QUEUE_LUT_ENTRY_SIZE tag bytes of that slot), and the payload files
of the queue directory as an association list name-to-content. -/
structure QueueState where
  hdr : DataQ_Hdr
  lut : Nat → Bytes
  files : List (Bytes × Bytes)

/-- The all-zero LUT entry: the empty-slot sentinel (memset 0). -/
def zeroTag : Bytes := List.replicate DATA_QUEUE_LUT_ENTRY_SIZE 0

/-- Point update of the LUT cache (PSL_memcpy of one entry into the cache). -/
def lutWrite (lut : Nat → Bytes) (i : Nat) (t : Bytes) : Nat → Bytes :=
  fun j => if j = i then t else lut j

/-- Look a file up by name (FSAL_OpenFile with READ_ONLY on an existing
file followed by FSAL_ReadFile: succeeds exactly when the name exists). -/
def fileLookup (files : List (Bytes × Bytes)) (name : Bytes) : Option Bytes :=
  (files.find? (fun kv => kv.1 = name)).map (fun kv => kv.2)

/-- Create/overwrite a file (FSAL_OpenFile with CREATE + FSAL_WriteFile):
afterwards the name maps to exactly the written bytes. -/
def fileWrite (files : List (Bytes × Bytes)) (name content : Bytes) :
    List (Bytes × Bytes) :=
  (name, content) :: files.filter (fun kv => ¬ kv.1 = name)

/-- Delete a file by name (FSAL_DeleteFile). -/
def fileDelete (files : List (Bytes × Bytes)) (name : Bytes) :
    List (Bytes × Bytes) :=
  files.filter (fun kv => ¬ kv.1 = name)

/-- The revolving reference tag minted from a reference count r (the loop at
dataqueue.c:697-699): byte DATA_QUEUE_LUT_ENTRY_SIZE-1-i holds the ASCII
digit of (r % (10^(i+1))) / 10^i, so the tag is the zero-padded decimal of
r mod 10^4, most significant digit first. -/
def tagOfRef (r : Nat) : Bytes :=
  [48 + (r % 10000) / 1000, 48 + (r % 1000) / 100,
   48 + (r % 100) / 10, 48 + (r % 10) / 1]

/-- The C string read out of a tag buffer: the bytes up to the first NUL
(the reference array is copied and then NUL-terminated to form the payload
file name). -/
def cname (t : Bytes) : Bytes := t.takeWhile (fun b => decide (b ≠ 0))

/-- Ring-level body of DataQ_FifoEnqueue (dataqueue.c:693-763): increment the
reference count (uint16_t), mint the tag, create the payload file named by the
tag, then update LUT and header by the empty / full / partial case analysis. -/
def ringEnqueue (s : QueueState) (payload : Bytes) : QueueState :=
  let r := (s.hdr.reference_count + 1) % 65536
  let tag := tagOfRef r
  let files1 := fileWrite s.files (cname tag) payload
  let N := s.hdr.max_entries
  if s.hdr.num_of_entries = 0 ∧ s.hdr.head_lut_offs = s.hdr.tail_lut_offs then
    { hdr := { s.hdr with
        reference_count := r
        num_of_entries := (s.hdr.num_of_entries + 1) % 256 }
      lut := lutWrite s.lut s.hdr.tail_lut_offs tag
      files := files1 }
  else if s.hdr.num_of_entries = N ∧
      ((s.hdr.head_lut_offs = 0 ∧ s.hdr.tail_lut_offs = N - 1) ∨
       (0 < s.hdr.head_lut_offs ∧
        s.hdr.tail_lut_offs = s.hdr.head_lut_offs - 1)) then
    let seek1 := if s.hdr.seek_lut_offs = s.hdr.head_lut_offs then
        (s.hdr.seek_lut_offs + 1) % N else s.hdr.seek_lut_offs
    let lut1 := lutWrite s.lut s.hdr.head_lut_offs zeroTag
    let head1 := (s.hdr.head_lut_offs + 1) % N
    let tail1 := (s.hdr.tail_lut_offs + 1) % N
    { hdr := { s.hdr with
        reference_count := r
        seek_lut_offs := seek1
        head_lut_offs := head1
        tail_lut_offs := tail1 }
      lut := lutWrite lut1 tail1 tag
      files := files1 }
  else
    let tail1 := (s.hdr.tail_lut_offs + 1) % N
    { hdr := { s.hdr with
        reference_count := r
        tail_lut_offs := tail1
        num_of_entries := (s.hdr.num_of_entries + 1) % 256 }
      lut := lutWrite s.lut tail1 tag
      files := files1 }

/-- Result of the ring-level dequeue: status, the bytes copied into the
caller's data buffer, the value stored through the size pointer, and the
resulting queue state. -/
structure DequeueResult where
  status : Nat
  dataOut : Bytes
  sizeOut : Nat
  state : QueueState

/-- Ring-level body of DataQ_FifoDequeue (dataqueue.c:907-951), with `cap`
the value of `*size` on entry (the caller's buffer capacity).  The empty test
requires both num_of_entries = 0 and head = tail, as in the source.  The C
statement at line 929 reads `*size = FSAL_ReadFile(...) < 0`: `<` binds
tighter than `=`, and FSAL_ReadFile has unsigned return type size_t in the
engine's view (inc/fsal.h), so the comparison is always false and `*size`
receives the value of the comparison, not the byte count; the model keeps the
comparison on the unsigned (Nat) read count verbatim.  On the
file-open-failure path nothing has been written back, so the state is
returned unchanged. -/
def ringDequeue (s : QueueState) (cap : Nat) : DequeueResult :=
  let N := s.hdr.max_entries
  if s.hdr.num_of_entries = 0 ∧ s.hdr.head_lut_offs = s.hdr.tail_lut_offs then
    { status := CODE_ERROR_QUEUE_IS_EMPTY, dataOut := [], sizeOut := cap,
      state := s }
  else
    let seek1 := if s.hdr.seek_lut_offs = s.hdr.head_lut_offs then
        (s.hdr.seek_lut_offs + 1) % N else s.hdr.seek_lut_offs
    let fname := cname (s.lut s.hdr.head_lut_offs)
    match fileLookup s.files fname with
    | none =>
      { status := CODE_ERROR_FS_ACCESS_FAIL, dataOut := [], sizeOut := cap,
        state := s }
    | some content =>
      let bytesRead := min cap content.length
      let sizeOut := if bytesRead < 0 then 1 else 0
      { status := CODE_STATUS_OK
        dataOut := content.take cap
        sizeOut := sizeOut
        state :=
          { hdr := { s.hdr with
              seek_lut_offs := seek1
              head_lut_offs := (s.hdr.head_lut_offs + 1) % N
              num_of_entries := (s.hdr.num_of_entries + 255) % 256 }
            lut := lutWrite s.lut s.hdr.head_lut_offs zeroTag
            files := fileDelete s.files fname } }

/-- Ring-level body of DataQ_FifoSeek (dataqueue.c:1089-1144): seekable gate,
the source's empty test, then the range check `position >= num_of_entries`
applied before the seek-type dispatch (so the check applies to every seek
type), then the dispatch.  `position` is a C int, hence Int; in the POSITION
case the C computes (head + position) % max_entries with int truncated
division and stores the result into the uint8 seek field. -/
def ringSeek (s : QueueState) (seek_type : Nat) (position : Int) :
    Nat × QueueState :=
  if s.hdr.flags &&& FLAGS_RANDOM_ACCESS = 0 then
    (CODE_ERROR_QUEUE_NOT_SEEKABLE, s)
  else if s.hdr.num_of_entries = 0 ∧
      s.hdr.head_lut_offs = s.hdr.tail_lut_offs then
    (CODE_ERROR_QUEUE_IS_EMPTY, s)
  else if (s.hdr.num_of_entries : Int) ≤ position then
    (CODE_ERROR_INVALID_SEEK, s)
  else if seek_type = SEEK_TYPE_HEAD then
    (CODE_STATUS_OK, { s with hdr := { s.hdr with
        seek_lut_offs := s.hdr.head_lut_offs } })
  else if seek_type = SEEK_TYPE_TAIL then
    (CODE_STATUS_OK, { s with hdr := { s.hdr with
        seek_lut_offs := s.hdr.tail_lut_offs } })
  else
    let v : Int := Int.tmod ((s.hdr.head_lut_offs : Int) + position)
        (s.hdr.max_entries : Int)
    (CODE_STATUS_OK, { s with hdr := { s.hdr with
        seek_lut_offs := (Int.emod v 256).toNat } })

/-- Ring-level body of DataQ_FifoGetEntry (dataqueue.c:1258-1308).  The
reference buffer holds the four tag bytes; the terminating NUL is stored out
of bounds (index DATA_QUEUE_LUT_ENTRY_SIZE + 1 of a buffer of
DATA_QUEUE_LUT_ENTRY_SIZE + 1 bytes, see the C10 development below), so byte
4 of the file-name string is whatever was on the stack: `garbage` models that
indeterminate byte.  On the file-open-failure path the header has not been
written back, so the state is unchanged; on success only the seek offset
advances (when not at the tail). -/
def ringGetEntry (s : QueueState) (cap : Nat) (garbage : Nat) :
    Nat × Bytes × QueueState :=
  let N := s.hdr.max_entries
  if s.hdr.num_of_entries = 0 ∧ s.hdr.head_lut_offs = s.hdr.tail_lut_offs then
    (CODE_ERROR_QUEUE_IS_EMPTY, [], s)
  else
    let fname := cname (s.lut s.hdr.seek_lut_offs ++ [garbage])
    match fileLookup s.files fname with
    | none => (CODE_ERROR_FS_ACCESS_FAIL, [], s)
    | some content =>
      let seek1 := if s.hdr.seek_lut_offs = s.hdr.tail_lut_offs then
          s.hdr.seek_lut_offs else (s.hdr.seek_lut_offs + 1) % N
      (CODE_STATUS_OK, content.take cap,
        { s with hdr := { s.hdr with seek_lut_offs := seek1 } })

/-- The queue state right after DataQ_FifoCreate plus a first header/LUT
read-back: header zero-initialised except the supplied bounds and flags
(dataqueue.c:78-88), every LUT cache slot zero (the .lut file holds zero
bytes and the read cache is zero-filled), and no payload files. -/
def freshQueue (max_entries max_entry_size flags : Nat) : QueueState :=
  { hdr := { size := 0
             max_entry_size := max_entry_size
             max_entries := max_entries
             num_of_entries := 0
             head_lut_offs := 0
             tail_lut_offs := 0
             seek_lut_offs := 0
             reference_count := 0
             flags := flags }
    lut := fun _ => zeroTag
    files := [] }

/-- The .lut file content written by the create loop (dataqueue.c:140-158):
one zeroed DataQ_LUT_Entry_t per iteration, max_entries iterations. -/
def DataQ_FifoCreate_lutFile : Nat → Bytes
  | 0 => []
  | me + 1 => DataQ_FifoCreate_lutFile me ++
      List.replicate DATA_QUEUE_LUT_ENTRY_SIZE 0

/-! Operation layer: the process-local handle table and the lock-file
protocol around the ring-level bodies. -/

/-- The DataQ_File_t handle record.  `handle` is the stored int slot value;
DATA_QUEUE_FILE_HANDLE_INVALID (= 0) marks a free slot. -/
structure DataQ_File where
  name : Bytes
  handle : Int
  access : Nat
  mode : Nat
deriving Repr, DecidableEq

/-- A freed slot: memset of the whole record to 0 (dataqueue.c:562 and the
static initialiser at line 27): empty name, handle 0, access 0, mode 0. -/
def slotInvalid : DataQ_File := { name := [], handle := 0, access := 0, mode := 0 }

/-- The process-wide handle list (DataQ_FileHandleList), 10 slots. -/
abbrev HandleTable := List DataQ_File

def freshTable : HandleTable :=
  List.replicate DATA_QUEUE_FILE_HANDLE_LIST_MAX slotInvalid

/-- The filesystem environment of one queue directory seen by the guards:
whether the directory exists and which lock files are present.  `rolock` is
the one-byte reader count stored in .rolock when that file exists. -/
structure FsEnv where
  dirExists : Bool
  rolock : Option Nat
  wolock : Bool
  rwlock : Bool
deriving Repr, DecidableEq

/-- A caller-supplied fifo handle, modelling the pointer value: `some i` is
the address of slot i of the handle list, `none` any pointer that is not a
slot address.  The C validity scan compares the pointer against each slot
address (dataqueue.c:631-649) and returns INVALID_HANDLE only when no slot
address matches. -/
abbrev HandleRef := Option (Fin 10)

/-- DataQ_FifoOpen (dataqueue.c:310-464) on the handle table and lock
environment: argument validation, directory check, re-open scan (a slot
counts only when its stored handle differs from the invalid sentinel 0),
lock-file compatibility, lock creation/update, then free-slot allocation
(the free slot i stores handle value i).  Returns (status, table, env,
returned slot index if any). -/
def DataQ_FifoOpen (tbl : HandleTable) (env : FsEnv) (name : Bytes)
    (access mode : Nat) : Nat × HandleTable × FsEnv × Option Nat :=
  if ACCESS_TYPE_MAX ≤ access ∨ ACCESS_MODE_MAX ≤ mode then
    (CODE_ERROR_INVALID_ARG, tbl, env, none)
  else if ¬ env.dirExists then
    (CODE_ERROR_QUEUE_MISSING, tbl, env, none)
  else
    match tbl.findIdx? (fun sl =>
        decide (sl.handle ≠ DATA_QUEUE_FILE_HANDLE_INVALID) &&
        decide (sl.name = name)) with
    | some i =>
      let sl := tbl.getD i slotInvalid
      if sl.access = access ∧ sl.mode = mode then
        (CODE_STATUS_OK, tbl, env, some i)
      else
        (CODE_ERROR_QUEUE_OPENED, tbl, env, none)
    | none =>
      if env.wolock ∨ env.rwlock then
        (CODE_ERROR_QUEUE_IS_BUSY, tbl, env, none)
      else if env.rolock.isSome ∧ access ≠ ACCESS_TYPE_READ_ONLY then
        (CODE_ERROR_QUEUE_IS_BUSY, tbl, env, none)
      else
        let env1 :=
          if access = ACCESS_TYPE_READ_ONLY then
            match env.rolock with
            | none => { env with rolock := some 1 }
            | some c => { env with rolock := some ((c + 1) % 256) }
          else if access = ACCESS_TYPE_WRITE_ONLY then
            { env with wolock := true }
          else
            { env with rwlock := true }
        match tbl.findIdx? (fun sl =>
            decide (sl.handle = DATA_QUEUE_FILE_HANDLE_INVALID)) with
        | some i =>
          (CODE_STATUS_OK,
           tbl.set i { name := name, handle := (i : Int),
                       access := access, mode := mode },
           env1, some i)
        | none => (CODE_ERROR_HANDLE_NOT_AVAIL, tbl, env1, none)

/-- DataQ_FifoClose (dataqueue.c:498-578): directory check, then for a
pointer that is a slot address: decrement/delete .rolock if present, delete
.wolock / .rwlock if present, memset the slot; a foreign pointer matches no
slot and the loop falls through with no effect. -/
def DataQ_FifoClose (tbl : HandleTable) (env : FsEnv) (h : HandleRef) :
    Nat × HandleTable × FsEnv :=
  if ¬ env.dirExists then
    (CODE_ERROR_QUEUE_MISSING, tbl, env)
  else
    match h with
    | none => (CODE_STATUS_OK, tbl, env)
    | some i =>
      let env1 :=
        match env.rolock with
        | some c =>
          let users := (c + 255) % 256
          if users = 0 then { env with rolock := none }
          else { env with rolock := some users }
        | none => env
      let env2 := { env1 with wolock := false, rwlock := false }
      (CODE_STATUS_OK, tbl.set i.val slotInvalid, env2)

/-- DataQ_FifoEnqueue (dataqueue.c:611-792): argument checks, the pointer
scan over the handle list, write-access check, directory check, writer-lock
check, then the ring-level body. -/
def DataQ_FifoEnqueue (tbl : HandleTable) (env : FsEnv) (h : HandleRef)
    (q : QueueState) (payload : Bytes) : Nat × QueueState :=
  if payload.length = 0 then (CODE_ERROR_INVALID_ARG, q)
  else
    match h with
    | none => (CODE_ERROR_INVALID_HANDLE, q)
    | some i =>
      let sl := tbl.getD i.val slotInvalid
      if sl.access ≠ ACCESS_TYPE_WRITE_ONLY ∧
          sl.access ≠ ACCESS_TYPE_READ_WRITE then
        (CODE_ERROR_QUEUE_READ_ONLY, q)
      else if ¬ env.dirExists then (CODE_ERROR_QUEUE_MISSING, q)
      else if ¬ env.wolock ∧ ¬ env.rwlock then (CODE_ERROR_QUEUE_CLOSED, q)
      else (CODE_STATUS_OK, ringEnqueue q payload)

/-- DataQ_FifoDequeue (dataqueue.c:831-980): argument checks, pointer scan,
write-access check, directory check, writer-lock check, ring-level body. -/
def DataQ_FifoDequeue (tbl : HandleTable) (env : FsEnv) (h : HandleRef)
    (q : QueueState) (cap : Nat) : Nat × Bytes × Nat × QueueState :=
  match h with
  | none => (CODE_ERROR_INVALID_HANDLE, [], cap, q)
  | some i =>
    let sl := tbl.getD i.val slotInvalid
    if sl.access ≠ ACCESS_TYPE_WRITE_ONLY ∧
        sl.access ≠ ACCESS_TYPE_READ_WRITE then
      (CODE_ERROR_QUEUE_READ_ONLY, [], cap, q)
    else if ¬ env.dirExists then (CODE_ERROR_QUEUE_MISSING, [], cap, q)
    else if ¬ env.wolock ∧ ¬ env.rwlock then
      (CODE_ERROR_QUEUE_CLOSED, [], cap, q)
    else
      let r := ringDequeue q cap
      (r.status, r.dataOut, r.sizeOut, r.state)

/-- DataQ_FifoSeek (dataqueue.c:1023-1145): argument checks, pointer scan,
not-write-only check, directory check, reader-lock check, ring-level body. -/
def DataQ_FifoSeek (tbl : HandleTable) (env : FsEnv) (h : HandleRef)
    (q : QueueState) (seek_type : Nat) (position : Int) : Nat × QueueState :=
  if SEEK_TYPE_MAX ≤ seek_type then (CODE_ERROR_INVALID_ARG, q)
  else
    match h with
    | none => (CODE_ERROR_INVALID_HANDLE, q)
    | some i =>
      let sl := tbl.getD i.val slotInvalid
      if sl.access = ACCESS_TYPE_WRITE_ONLY then
        (CODE_ERROR_QUEUE_WRITE_ONLY, q)
      else if ¬ env.dirExists then (CODE_ERROR_QUEUE_MISSING, q)
      else if ¬ env.rolock.isSome ∧ ¬ env.rwlock then
        (CODE_ERROR_QUEUE_CLOSED, q)
      else ringSeek q seek_type position

/-- DataQ_FifoGetEntry (dataqueue.c:1182-1309): argument checks, pointer
scan, not-write-only check, directory check, reader-lock check, ring-level
body (with the indeterminate fifth file-name byte, see ringGetEntry). -/
def DataQ_FifoGetEntry (tbl : HandleTable) (env : FsEnv) (h : HandleRef)
    (q : QueueState) (cap : Nat) (garbage : Nat) : Nat × Bytes × QueueState :=
  match h with
  | none => (CODE_ERROR_INVALID_HANDLE, [], q)
  | some i =>
    let sl := tbl.getD i.val slotInvalid
    if sl.access = ACCESS_TYPE_WRITE_ONLY then
      (CODE_ERROR_QUEUE_WRITE_ONLY, [], q)
    else if ¬ env.dirExists then (CODE_ERROR_QUEUE_MISSING, [], q)
    else if ¬ env.rolock.isSome ∧ ¬ env.rwlock then
      (CODE_ERROR_QUEUE_CLOSED, [], q)
    else ringGetEntry q cap garbage

/-- DataQ_FifoGetLength (dataqueue.c:1337-1400): argument checks, pointer
scan, directory check, any-lock check, then the entry count. -/
def DataQ_FifoGetLength (_tbl : HandleTable) (env : FsEnv) (h : HandleRef)
    (q : QueueState) : Nat × Nat :=
  match h with
  | none => (CODE_ERROR_INVALID_HANDLE, 0)
  | some _ =>
    if ¬ env.dirExists then (CODE_ERROR_QUEUE_MISSING, 0)
    else if ¬ env.rolock.isSome ∧ ¬ env.wolock ∧ ¬ env.rwlock then
      (CODE_ERROR_QUEUE_CLOSED, 0)
    else (CODE_STATUS_OK, q.hdr.num_of_entries)

/-! Operation sequences over one queue, for lifetime-invariant statements. -/

/-- One queue operation applied to the persistent queue state (the ring-level
bodies; the surrounding guards do not change the queue state). -/
inductive DataQ_Op where
  | enq (payload : Bytes)
  | deq (cap : Nat)
  | seekTo (seek_type : Nat) (position : Int)
  | getE (cap : Nat) (garbage : Nat)
deriving Repr

/-- Apply one operation to the queue state. -/
def applyOp (s : QueueState) : DataQ_Op → QueueState
  | DataQ_Op.enq p => ringEnqueue s p
  | DataQ_Op.deq cap => (ringDequeue s cap).state
  | DataQ_Op.seekTo t pos => (ringSeek s t pos).2
  | DataQ_Op.getE cap g => (ringGetEntry s cap g).2.2

/-- Run a sequence of operations. -/
def runOps (s : QueueState) : List DataQ_Op → QueueState
  | [] => s
  | op :: ops => runOps (applyOp s op) ops

/-- The payloads of the enqueue operations in a sequence. -/
def enqPayloads (ops : List DataQ_Op) : List Bytes :=
  ops.filterMap (fun op => match op with
    | DataQ_Op.enq p => some p
    | _ => none)

/-- Run a list of operation-level enqueues, collecting each call's status. -/
def enqRun (tbl : HandleTable) (env : FsEnv) (h : HandleRef)
    (q : QueueState) : List Bytes → List Nat × QueueState
  | [] => ([], q)
  | p :: ps =>
    let r := DataQ_FifoEnqueue tbl env h q p
    let rest := enqRun tbl env h r.2 ps
    (r.1 :: rest.1, rest.2)

/-- Run m successive operation-level dequeues with buffer capacity cap,
collecting each call's status and the bytes stored into the data buffer. -/
def deqRun (tbl : HandleTable) (env : FsEnv) (h : HandleRef)
    (q : QueueState) (cap : Nat) : Nat → List (Nat × Bytes) × QueueState
  | 0 => ([], q)
  | m + 1 =>
    let r := DataQ_FifoDequeue tbl env h q cap
    let rest := deqRun tbl env h r.2.2.2 cap m
    ((r.1, r.2.1) :: rest.1, rest.2)

/-- Iterate the ring-level enqueue m times with a fixed payload. -/
def iterEnq (s : QueueState) (p : Bytes) : Nat → QueueState
  | 0 => s
  | m + 1 => ringEnqueue (iterEnq s p m) p

/-! The reachability invariant tying the on-disk ring to the run of enqueued
payloads.  `j` is the total number of enqueues performed since creation and
`live` the payloads currently held, oldest first: entry m of `live` was
installed by enqueue number j - live.length + 1 + m. -/

/-- Invariant of a queue state reachable from `freshQueue N _ _` after j
enqueues with `live` payloads still held. -/
structure Inv (s : QueueState) (N j : Nat) (live : List Bytes) : Prop where
  hN1 : 1 ≤ N
  hN255 : N ≤ 255
  hme : s.hdr.max_entries = N
  hn : s.hdr.num_of_entries = live.length
  hlen : live.length ≤ N
  hjn : live.length ≤ j
  hrc : s.hdr.reference_count = j % 65536
  hhead : s.hdr.head_lut_offs = (j - live.length) % N
  htlt : s.hdr.tail_lut_offs < N
  htail : if j = 0 then s.hdr.tail_lut_offs = 0
    else (s.hdr.tail_lut_offs + 1) % N = j % N
  hlut : ∀ m, m < live.length →
    s.lut ((j - live.length + m) % N) =
      tagOfRef ((j - live.length + 1 + m) % 65536)
  hdead : ∀ t, t < N → (∀ m, m < live.length → t ≠ (j - live.length + m) % N) →
    s.lut t = zeroTag
  hfiles : ∀ m, m < live.length →
    fileLookup s.files (cname (tagOfRef ((j - live.length + 1 + m) % 65536))) =
      live[m]?
  hkeys : ∀ kv, kv ∈ s.files → kv.1 ≠ ([] : Bytes)

/-! Definitions for the C10 buffer-bounds analysis of DataQ_FifoGetEntry.
The local buffer `fifo_lut_entry_reference` is declared with
DATA_QUEUE_LUT_ENTRY_SIZE + 1 bytes (dataqueue.c:1188); PSL_memcpy fills
indices 0..DATA_QUEUE_LUT_ENTRY_SIZE-1 (line 1274) and the terminating NUL
store uses index DATA_QUEUE_LUT_ENTRY_SIZE + 1 (line 1275).  For contrast,
DataQ_FifoDequeue stores its terminator at index DATA_QUEUE_LUT_ENTRY_SIZE
(line 925). -/

/-- Byte count of the local reference buffer of DataQ_FifoGetEntry. -/
def GetEntry_reference_buffer_size : Nat := DATA_QUEUE_LUT_ENTRY_SIZE + 1

/-- The indices stored into that buffer by DataQ_FifoGetEntry: the memcpy of
the tag bytes, then the terminator store of line 1275. -/
def GetEntry_reference_store_indices : List Nat :=
  (List.range DATA_QUEUE_LUT_ENTRY_SIZE) ++ [DATA_QUEUE_LUT_ENTRY_SIZE + 1]

/-- The indices stored into the same-sized buffer by DataQ_FifoDequeue
(lines 924-925): the memcpy of the tag bytes, then the terminator store at
index DATA_QUEUE_LUT_ENTRY_SIZE. -/
def Dequeue_reference_store_indices : List Nat :=
  (List.range DATA_QUEUE_LUT_ENTRY_SIZE) ++ [DATA_QUEUE_LUT_ENTRY_SIZE]

/-! Concrete scenario states used by the evaluation theorems. -/

/-- Spec scenario 2: Create("q", 3, 16, RANDOM_ACCESS) and enqueue "aa",
"bb", "cc". -/
def scenario2_state : QueueState :=
  List.foldl ringEnqueue (freshQueue 3 16 FLAGS_RANDOM_ACCESS)
    [[97, 97], [98, 98], [99, 99]]

/-- The states after one, two and three dequeues of scenario 2. -/
def scenario2_d1 : DequeueResult := ringDequeue scenario2_state 16
def scenario2_d2 : DequeueResult := ringDequeue scenario2_d1.state 16
def scenario2_d3 : DequeueResult := ringDequeue scenario2_d2.state 16
def scenario2_d4 : DequeueResult := ringDequeue scenario2_d3.state 16

/-- A queue of capacity 3 holding one two-byte payload (for the C3 dequeue
size analysis). -/
def c3_state : QueueState := ringEnqueue (freshQueue 3 16 0) [7, 7]

/-- First open of the process: Open("q", READ_WRITE, UNPACKED) on a fresh
handle table with the queue directory present and no lock files. -/
def c5_first_open : Nat × HandleTable × FsEnv × Option Nat :=
  DataQ_FifoOpen freshTable
    { dirExists := true, rolock := none, wolock := false, rwlock := false }
    [113] ACCESS_TYPE_READ_WRITE ACCESS_MODE_UNPACKED

/-- The identical second Open after the first. -/
def c5_second_open : Nat × HandleTable × FsEnv × Option Nat :=
  DataQ_FifoOpen c5_first_open.2.1 c5_first_open.2.2.1
    [113] ACCESS_TYPE_READ_WRITE ACCESS_MODE_UNPACKED

/-- Close of the handle returned by the first open (slot 0): the state in
which slot 0 has been released. -/
def c9_after_close : Nat × HandleTable × FsEnv :=
  DataQ_FifoClose c5_first_open.2.1 c5_first_open.2.2.1 (some 0)

/-- A seekable queue of capacity 4 holding one entry, with its RW-open
handle table and lock environment (for the C6 seek analysis). -/
def c6_state : QueueState := ringEnqueue (freshQueue 4 16 FLAGS_RANDOM_ACCESS) [119]

def c6_table : HandleTable :=
  freshTable.set 0 { name := [113], handle := 0,
                     access := ACCESS_TYPE_READ_WRITE,
                     mode := ACCESS_MODE_UNPACKED }

def c6_env : FsEnv :=
  { dirExists := true, rolock := none, wolock := false, rwlock := true }

/-- A queue created with max_entry_size = 4 into which a five-byte payload
is enqueued (for the C8 size-bound analysis). -/
def c8_state : QueueState := ringEnqueue (freshQueue 1 4 0) [1, 2, 3, 4, 5]

/-! Theorems. -/

/-- C1: running the spec's literal scenario 2 (capacity 3; enqueue "aa",
"bb", "cc"; dequeue four times) through the embedded enqueue/dequeue bodies:
the three dequeues succeed and return the payloads in order, but the fourth
dequeue returns CODE_ERROR_FS_ACCESS_FAIL, not CODE_ERROR_QUEUE_IS_EMPTY as
the claim states — the source's empty test (dataqueue.c:908-909) demands
num_of_entries = 0 AND head = tail, and after the head has wrapped past the
stale tail the empty queue fails that test, falls into the read path, builds
an empty file name from the zeroed LUT slot, and the file open fails. -/
theorem C1_scenario2_trace :
    scenario2_d1.status = CODE_STATUS_OK ∧ scenario2_d1.dataOut = [97, 97] ∧
    scenario2_d2.status = CODE_STATUS_OK ∧ scenario2_d2.dataOut = [98, 98] ∧
    scenario2_d3.status = CODE_STATUS_OK ∧ scenario2_d3.dataOut = [99, 99] ∧
    scenario2_d3.state.hdr.num_of_entries = 0 ∧
    scenario2_d4.status = CODE_ERROR_FS_ACCESS_FAIL ∧
    CODE_ERROR_FS_ACCESS_FAIL ≠ CODE_ERROR_QUEUE_IS_EMPTY := by
  decide

/-- C3: dequeueing the single two-byte payload of `c3_state` with an entry
size of 16 succeeds, copies both payload bytes into the data buffer and
deletes the payload file, but stores 0 into the size output rather than the
byte count 2: line 929 reads `*size = FSAL_ReadFile(...) < 0`, and because
`<` binds tighter than `=` and the read count has unsigned type size_t, the
always-false comparison (not the byte count) is what is assigned. -/
theorem C3_dequeue_size_output :
    (ringDequeue c3_state 16).status = CODE_STATUS_OK ∧
    (ringDequeue c3_state 16).dataOut = [7, 7] ∧
    min 16 ([7, 7] : Bytes).length = 2 ∧
    (ringDequeue c3_state 16).sizeOut = 0 ∧
    (ringDequeue c3_state 16).sizeOut ≠ 2 ∧
    fileLookup (ringDequeue c3_state 16).state.files (cname (tagOfRef 1)) =
      none := by
  decide

/-- C5: the first Open of the process lands in slot 0 and stores handle
value 0 there, which equals DATA_QUEUE_FILE_HANDLE_INVALID; the re-open scan
(dataqueue.c:337) therefore skips the slot, and an identical second Open
falls through to the lock check and fails with CODE_ERROR_QUEUE_IS_BUSY
instead of returning CODE_STATUS_OK with the existing handle. -/
theorem C5_reopen_first_slot :
    c5_first_open.1 = CODE_STATUS_OK ∧
    c5_first_open.2.2.2 = some 0 ∧
    (c5_first_open.2.1.getD 0 slotInvalid).handle =
      DATA_QUEUE_FILE_HANDLE_INVALID ∧
    c5_second_open.1 = CODE_ERROR_QUEUE_IS_BUSY ∧
    CODE_ERROR_QUEUE_IS_BUSY ≠ CODE_STATUS_OK := by
  decide

/-- C6: on an open, seekable, non-empty queue (one entry), Seek with type
SEEK_TYPE_HEAD and position 1 fails with CODE_ERROR_INVALID_SEEK: the range
check `position >= num_of_entries` (dataqueue.c:1106) runs before the
seek-type dispatch and so applies to HEAD and TAIL seeks too, although the
claim (and the function's own parameter documentation) says the position is
ignored for those types.  With position 0 the same seek succeeds. -/
theorem C6_seek_head_position_checked :
    (DataQ_FifoSeek c6_table c6_env (some 0) c6_state SEEK_TYPE_HEAD 1).1 =
      CODE_ERROR_INVALID_SEEK ∧
    (DataQ_FifoSeek c6_table c6_env (some 0) c6_state SEEK_TYPE_TAIL 1).1 =
      CODE_ERROR_INVALID_SEEK ∧
    (DataQ_FifoSeek c6_table c6_env (some 0) c6_state SEEK_TYPE_HEAD 0).1 =
      CODE_STATUS_OK ∧
    CODE_ERROR_INVALID_SEEK ≠ CODE_STATUS_OK := by
  decide

/-- C8 counterexample: Enqueue performs no size check against
max_entry_size, so enqueueing a five-byte payload into a queue created with
max_entry_size = 4 succeeds and leaves a live LUT slot whose payload file
holds five bytes, violating the claimed bound. -/
theorem C8_counterexample :
    (DataQ_FifoEnqueue c6_table c6_env (some 0) (freshQueue 1 4 0)
        [1, 2, 3, 4, 5]).1 = CODE_STATUS_OK ∧
    c8_state.hdr.num_of_entries = 1 ∧
    fileLookup c8_state.files
        (cname (c8_state.lut ((c8_state.hdr.head_lut_offs + 0) %
          c8_state.hdr.max_entries))) = some [1, 2, 3, 4, 5] ∧
    ¬ (([1, 2, 3, 4, 5] : Bytes).length ≤ c8_state.hdr.max_entry_size) := by
  decide

/-- C9 counterexample: after Open then Close, slot 0 is released (memset to
the invalid record), yet a caller still holding the slot-0 pointer passes
the address scan of Enqueue and gets CODE_ERROR_QUEUE_READ_ONLY (the zeroed
access field reads as READ_ONLY), not CODE_ERROR_INVALID_HANDLE as the
claim states. -/
theorem C9_counterexample :
    c9_after_close.2.1.getD 0 slotInvalid = slotInvalid ∧
    (DataQ_FifoEnqueue c9_after_close.2.1 c9_after_close.2.2 (some 0)
        (freshQueue 2 8 0) [5]).1 = CODE_ERROR_QUEUE_READ_ONLY ∧
    CODE_ERROR_QUEUE_READ_ONLY ≠ CODE_ERROR_INVALID_HANDLE := by
  decide

/-! Arithmetic helper lemmas. -/

/-- Two numbers less than N apart with equal residues mod N are equal. -/
theorem mod_inj_of_lt {N a b : Nat} (hab : b ≤ a) (hd : a - b < N)
    (h : a % N = b % N) : a = b := by
  have h1 : N ∣ a - b := (Nat.modEq_iff_dvd' hab).mp h.symm
  have h2 : a - b = 0 := Nat.eq_zero_of_dvd_of_lt h1 hd
  omega

/-- Core window fact: adding between 1 and 255 to a value below 2^16 changes
its residue mod 2^16 mod 10^4. -/
theorem tagMod_window {x d : Nat} (hx : x < 65536) (h1 : 1 ≤ d)
    (h2 : d ≤ 255) : ((x + d) % 65536) % 10000 ≠ x % 10000 := by
  rcases Nat.lt_or_ge (x + d) 65536 with hc | hc
  · rw [Nat.mod_eq_of_lt hc]
    omega
  · rw [Nat.mod_eq_sub_mod hc,
      Nat.mod_eq_of_lt (by omega : x + d - 65536 < 65536)]
    omega

/-- Enqueue numbers at most 255 apart mint distinct tag values: their
reference counts reduced mod 2^16 differ mod 10^4. -/
theorem tag_window_ne {a b : Nat} (h1 : b < a) (h2 : a - b ≤ 255) :
    (a % 65536) % 10000 ≠ (b % 65536) % 10000 := by
  have hd : a = b + (a - b) := by omega
  rw [hd, Nat.add_mod b (a - b),
    Nat.mod_eq_of_lt (by omega : a - b < 65536)]
  exact tagMod_window (Nat.mod_lt _ (by omega)) (by omega) (by omega)

/-- The tag digits determine the reference count mod 10^4. -/
theorem tagOfRef_inj {r r' : Nat} (h : tagOfRef r = tagOfRef r') :
    r % 10000 = r' % 10000 := by
  simp only [tagOfRef, List.cons.injEq, and_true] at h
  omega

/-- Tags of enqueue numbers at most 255 apart are distinct. -/
theorem tagOfRef_window_ne {a b : Nat} (h1 : b < a) (h2 : a - b ≤ 255) :
    tagOfRef (a % 65536) ≠ tagOfRef (b % 65536) := by
  intro h
  exact tag_window_ne h1 h2 (tagOfRef_inj h)

/-- Every byte of a minted tag is an ASCII digit, hence nonzero, so the
C-string file name is the whole tag. -/
theorem cname_tagOfRef (r : Nat) : cname (tagOfRef r) = tagOfRef r := by
  simp only [cname, tagOfRef, List.takeWhile]
  norm_num

/-- A minted tag is never the empty-slot sentinel. -/
theorem tagOfRef_ne_zeroTag (r : Nat) : tagOfRef r ≠ zeroTag := by
  simp only [tagOfRef, zeroTag, DATA_QUEUE_LUT_ENTRY_SIZE]
  intro h
  simp only [List.replicate, List.cons.injEq] at h
  omega

/-- The file-name string of the zero sentinel is empty. -/
theorem cname_zeroTag : cname zeroTag = [] := by decide

/-- The file name minted from a tag is nonempty. -/
theorem cname_tagOfRef_ne_nil (r : Nat) : cname (tagOfRef r) ≠ [] := by
  rw [cname_tagOfRef]
  simp [tagOfRef]

/-! File-map lemmas. -/

theorem fileLookup_write_self (fs : List (Bytes × Bytes)) (n c : Bytes) :
    fileLookup (fileWrite fs n c) n = some c := by
  simp [fileLookup, fileWrite, List.find?]

theorem fileLookup_write_ne (fs : List (Bytes × Bytes)) {n n' : Bytes}
    (c : Bytes) (h : n' ≠ n) :
    fileLookup (fileWrite fs n c) n' = fileLookup fs n' := by
  simp only [fileLookup, fileWrite]
  rw [List.find?_cons_of_neg _ (by simp [Ne.symm h])]
  induction fs with
  | nil => rfl
  | cons kv fs ih =>
    by_cases hk : kv.1 = n
    · rw [List.filter_cons_of_neg (by simp [hk]),
        List.find?_cons_of_neg _ (by simp [hk, Ne.symm h])]
      exact ih
    · by_cases hk' : kv.1 = n'
      · rw [List.filter_cons_of_pos (by simp [hk]),
          List.find?_cons_of_pos _ (by simp [hk']),
          List.find?_cons_of_pos _ (by simp [hk'])]
      · rw [List.filter_cons_of_pos (by simp [hk]),
          List.find?_cons_of_neg _ (by simp [hk']),
          List.find?_cons_of_neg _ (by simp [hk'])]
        exact ih

theorem fileLookup_delete_ne (fs : List (Bytes × Bytes)) {n n' : Bytes}
    (h : n' ≠ n) :
    fileLookup (fileDelete fs n) n' = fileLookup fs n' := by
  simp only [fileLookup, fileDelete]
  induction fs with
  | nil => rfl
  | cons kv fs ih =>
    by_cases hk : kv.1 = n
    · rw [List.filter_cons_of_neg (by simp [hk]),
        List.find?_cons_of_neg _ (by simp [hk, Ne.symm h])]
      exact ih
    · by_cases hk' : kv.1 = n'
      · rw [List.filter_cons_of_pos (by simp [hk]),
          List.find?_cons_of_pos _ (by simp [hk']),
          List.find?_cons_of_pos _ (by simp [hk'])]
      · rw [List.filter_cons_of_pos (by simp [hk]),
          List.find?_cons_of_neg _ (by simp [hk']),
          List.find?_cons_of_neg _ (by simp [hk'])]
        exact ih

theorem fileLookup_none_of_keys (fs : List (Bytes × Bytes)) (n : Bytes)
    (h : ∀ kv ∈ fs, kv.1 ≠ n) : fileLookup fs n = none := by
  simp only [fileLookup]
  induction fs with
  | nil => rfl
  | cons kv fs ih =>
    rw [List.find?_cons_of_neg _ (by simp [h kv (by simp)])]
    exact ih (fun kv hkv => h kv (by simp [hkv]))

theorem mem_fileWrite {fs : List (Bytes × Bytes)} {n c : Bytes}
    {kv : Bytes × Bytes} (h : kv ∈ fileWrite fs n c) :
    kv = (n, c) ∨ kv ∈ fs := by
  simp only [fileWrite, List.mem_cons] at h
  rcases h with h | h
  · exact Or.inl h
  · exact Or.inr (List.mem_of_mem_filter h)

theorem mem_fileDelete {fs : List (Bytes × Bytes)} {n : Bytes}
    {kv : Bytes × Bytes} (h : kv ∈ fileDelete fs n) : kv ∈ fs :=
  List.mem_of_mem_filter h

/-! Reference-count behaviour of every operation. -/

theorem ringEnqueue_reference_count (s : QueueState) (p : Bytes) :
    (ringEnqueue s p).hdr.reference_count =
      (s.hdr.reference_count + 1) % 65536 := by
  unfold ringEnqueue
  dsimp only
  repeat' split
  all_goals rfl

theorem ringDequeue_state_reference_count (s : QueueState) (cap : Nat) :
    (ringDequeue s cap).state.hdr.reference_count =
      s.hdr.reference_count := by
  unfold ringDequeue
  dsimp only
  repeat' split
  all_goals rfl

theorem ringSeek_reference_count (s : QueueState) (t : Nat) (pos : Int) :
    (ringSeek s t pos).2.hdr.reference_count = s.hdr.reference_count := by
  unfold ringSeek
  dsimp only
  repeat' split
  all_goals rfl

theorem ringGetEntry_reference_count (s : QueueState) (cap g : Nat) :
    (ringGetEntry s cap g).2.2.hdr.reference_count =
      s.hdr.reference_count := by
  unfold ringGetEntry
  dsimp only
  repeat' split
  all_goals rfl

/-- Reference count after m enqueues from a fresh queue. -/
theorem iterEnq_reference_count (N mes flags : Nat) (p : Bytes) :
    ∀ m, (iterEnq (freshQueue N mes flags) p m).hdr.reference_count =
      m % 65536 := by
  intro m
  induction m with
  | zero => rfl
  | succ m ih =>
    rw [iterEnq, ringEnqueue_reference_count, ih]
    omega

/-- C7 counterexample: the 65536-th enqueue of a queue's lifetime wraps the
uint16_t reference_count from 65535 back to 0, a strict decrease, so the
field is not non-decreasing for every number of enqueues. -/
theorem C7_counterexample :
    (iterEnq (freshQueue 3 8 0) [1] 65536).hdr.reference_count <
      (iterEnq (freshQueue 3 8 0) [1] 65535).hdr.reference_count := by
  rw [iterEnq_reference_count, iterEnq_reference_count]
  norm_num

/-- C7 amended: every Enqueue advances reference_count by one modulo 2^16
(hence strictly increases it as long as its previous value is below 65535),
and Dequeue, Seek and GetEntry leave it unchanged. -/
theorem C7_reference_count_step (s : QueueState) (p : Bytes)
    (cap t g : Nat) (pos : Int) :
    (ringEnqueue s p).hdr.reference_count =
      (s.hdr.reference_count + 1) % 65536 ∧
    (s.hdr.reference_count < 65535 →
      s.hdr.reference_count < (ringEnqueue s p).hdr.reference_count) ∧
    (ringDequeue s cap).state.hdr.reference_count =
      s.hdr.reference_count ∧
    (ringSeek s t pos).2.hdr.reference_count = s.hdr.reference_count ∧
    (ringGetEntry s cap g).2.2.hdr.reference_count =
      s.hdr.reference_count := by
  refine ⟨ringEnqueue_reference_count s p, ?_,
    ringDequeue_state_reference_count s cap,
    ringSeek_reference_count s t pos,
    ringGetEntry_reference_count s cap g⟩
  intro hlt
  rw [ringEnqueue_reference_count]
  omega

/-- Witness for C7_reference_count_step at a concrete state. -/
theorem C7_reference_count_step_witness :
    (freshQueue 3 8 0).hdr.reference_count <
      (ringEnqueue (freshQueue 3 8 0) [1]).hdr.reference_count :=
  (C7_reference_count_step (freshQueue 3 8 0) [1] 4 0 0 0).2.1 (by decide)

/-- The create loop writes exactly max_entries zeroed LUT entries. -/
theorem DataQ_FifoCreate_lutFile_eq (me : Nat) :
    DataQ_FifoCreate_lutFile me =
      List.replicate (me * DATA_QUEUE_LUT_ENTRY_SIZE) 0 := by
  induction me with
  | zero => rfl
  | succ me ih =>
    rw [DataQ_FifoCreate_lutFile, ih]
    rw [show (me + 1) * DATA_QUEUE_LUT_ENTRY_SIZE =
      me * DATA_QUEUE_LUT_ENTRY_SIZE + DATA_QUEUE_LUT_ENTRY_SIZE by ring]
    rw [List.replicate_add]

/-- C4 counterexample: with max_entries = 1 (a valid argument), the .lut
file written by Create has 1 * DATA_QUEUE_LUT_ENTRY_SIZE = 4 bytes, not the
claimed Cap_max * W = DATAQ_LUT_FILE_SIZE_MAX = 1024 bytes: the create loop
(dataqueue.c:140) iterates max_entries times, so the size is not
independent of max_entries. -/
theorem C4_counterexample :
    (DataQ_FifoCreate_lutFile 1).length = 4 ∧
    (DataQ_FifoCreate_lutFile 1).length ≠ DATAQ_LUT_FILE_SIZE_MAX := by
  decide

/-- C4 amended: for every valid max_entries, Create writes a .lut file
consisting entirely of zero bytes whose size is max_entries *
DATA_QUEUE_LUT_ENTRY_SIZE bytes. -/
theorem C4_create_lut_content (me : Nat) (_h1 : 1 ≤ me) (_h2 : me ≤ 255) :
    (DataQ_FifoCreate_lutFile me).length =
      me * DATA_QUEUE_LUT_ENTRY_SIZE ∧
    ∀ b ∈ DataQ_FifoCreate_lutFile me, b = 0 := by
  rw [DataQ_FifoCreate_lutFile_eq]
  constructor
  · exact List.length_replicate _ _
  · intro b hb
    exact List.eq_of_mem_replicate hb

/-- Witness for C4_create_lut_content at max_entries = 3. -/
theorem C4_create_lut_content_witness :
    (1 ≤ 3 ∧ 3 ≤ 255) ∧
    ((DataQ_FifoCreate_lutFile 3).length = 3 * DATA_QUEUE_LUT_ENTRY_SIZE ∧
      ∀ b ∈ DataQ_FifoCreate_lutFile 3, b = 0) :=
  ⟨by decide, C4_create_lut_content 3 (by decide) (by decide)⟩

/-- C10: the stores of DataQ_FifoGetEntry into its (DATA_QUEUE_LUT_ENTRY_SIZE
+ 1)-byte reference buffer are not all within bounds: the terminator store
uses index DATA_QUEUE_LUT_ENTRY_SIZE + 1 (dataqueue.c:1275), one past the
last valid index, while the analogous store in DataQ_FifoDequeue (line 925)
is in bounds. -/
theorem C10_getentry_nul_store_out_of_bounds :
    ¬ (∀ ix ∈ GetEntry_reference_store_indices,
        ix < GetEntry_reference_buffer_size) ∧
    (∀ ix ∈ Dequeue_reference_store_indices,
        ix < GetEntry_reference_buffer_size) := by
  decide

/-! LUT-write lemmas and branch-evaluation helpers. -/

theorem lutWrite_self (lut : Nat → Bytes) (i : Nat) (t : Bytes) :
    lutWrite lut i t i = t := by
  simp [lutWrite]

theorem lutWrite_ne (lut : Nat → Bytes) (i : Nat) (t : Bytes) {x : Nat}
    (h : x ≠ i) : lutWrite lut i t x = lut x := by
  simp [lutWrite, h]

/-- Every residue below N is hit by a window of N consecutive values. -/
theorem exists_window_hit (N base t : Nat) (hN : 0 < N) (ht : t < N) :
    ∃ m, m < N ∧ (base + m) % N = t := by
  rcases le_or_lt (base % N) t with hc | hc
  · refine ⟨t - base % N, by omega, ?_⟩
    rw [Nat.add_mod, Nat.mod_eq_of_lt (show t - base % N < N by omega),
      show base % N + (t - base % N) = t by omega, Nat.mod_eq_of_lt ht]
  · refine ⟨N + t - base % N, by omega, ?_⟩
    have hbm : base % N < N := Nat.mod_lt _ hN
    rw [Nat.add_mod, Nat.mod_eq_of_lt (show N + t - base % N < N by omega),
      show base % N + (N + t - base % N) = N + t by omega,
      Nat.add_mod_left, Nat.mod_eq_of_lt ht]

/-- Evaluation of ringEnqueue in the empty branch. -/
theorem ringEnqueue_empty_eq (s : QueueState) (p : Bytes)
    (hc : s.hdr.num_of_entries = 0 ∧
      s.hdr.head_lut_offs = s.hdr.tail_lut_offs) :
    ringEnqueue s p =
      { hdr := { s.hdr with
          reference_count := (s.hdr.reference_count + 1) % 65536
          num_of_entries := (s.hdr.num_of_entries + 1) % 256 }
        lut := lutWrite s.lut s.hdr.tail_lut_offs
          (tagOfRef ((s.hdr.reference_count + 1) % 65536))
        files := fileWrite s.files
          (cname (tagOfRef ((s.hdr.reference_count + 1) % 65536))) p } := by
  simp only [ringEnqueue]
  rw [if_pos hc]

/-- Evaluation of ringEnqueue in the full (overwrite) branch. -/
theorem ringEnqueue_full_eq (s : QueueState) (p : Bytes)
    (hc1 : ¬ (s.hdr.num_of_entries = 0 ∧
      s.hdr.head_lut_offs = s.hdr.tail_lut_offs))
    (hc2 : s.hdr.num_of_entries = s.hdr.max_entries ∧
      ((s.hdr.head_lut_offs = 0 ∧
        s.hdr.tail_lut_offs = s.hdr.max_entries - 1) ∨
       (0 < s.hdr.head_lut_offs ∧
        s.hdr.tail_lut_offs = s.hdr.head_lut_offs - 1))) :
    ringEnqueue s p =
      { hdr := { s.hdr with
          reference_count := (s.hdr.reference_count + 1) % 65536
          seek_lut_offs := if s.hdr.seek_lut_offs = s.hdr.head_lut_offs then
            (s.hdr.seek_lut_offs + 1) % s.hdr.max_entries
            else s.hdr.seek_lut_offs
          head_lut_offs := (s.hdr.head_lut_offs + 1) % s.hdr.max_entries
          tail_lut_offs := (s.hdr.tail_lut_offs + 1) % s.hdr.max_entries }
        lut := lutWrite (lutWrite s.lut s.hdr.head_lut_offs zeroTag)
          ((s.hdr.tail_lut_offs + 1) % s.hdr.max_entries)
          (tagOfRef ((s.hdr.reference_count + 1) % 65536))
        files := fileWrite s.files
          (cname (tagOfRef ((s.hdr.reference_count + 1) % 65536))) p } := by
  simp only [ringEnqueue]
  rw [if_neg hc1, if_pos hc2]

/-- Evaluation of ringEnqueue in the partial (append) branch. -/
theorem ringEnqueue_else_eq (s : QueueState) (p : Bytes)
    (hc1 : ¬ (s.hdr.num_of_entries = 0 ∧
      s.hdr.head_lut_offs = s.hdr.tail_lut_offs))
    (hc2 : ¬ (s.hdr.num_of_entries = s.hdr.max_entries ∧
      ((s.hdr.head_lut_offs = 0 ∧
        s.hdr.tail_lut_offs = s.hdr.max_entries - 1) ∨
       (0 < s.hdr.head_lut_offs ∧
        s.hdr.tail_lut_offs = s.hdr.head_lut_offs - 1)))) :
    ringEnqueue s p =
      { hdr := { s.hdr with
          reference_count := (s.hdr.reference_count + 1) % 65536
          tail_lut_offs := (s.hdr.tail_lut_offs + 1) % s.hdr.max_entries
          num_of_entries := (s.hdr.num_of_entries + 1) % 256 }
        lut := lutWrite s.lut ((s.hdr.tail_lut_offs + 1) % s.hdr.max_entries)
          (tagOfRef ((s.hdr.reference_count + 1) % 65536))
        files := fileWrite s.files
          (cname (tagOfRef ((s.hdr.reference_count + 1) % 65536))) p } := by
  simp only [ringEnqueue]
  rw [if_neg hc1, if_neg hc2]

/-- Evaluation of ringDequeue when the head payload file is found. -/
theorem ringDequeue_found_eq (s : QueueState) (cap : Nat) (content : Bytes)
    (hc : ¬ (s.hdr.num_of_entries = 0 ∧
      s.hdr.head_lut_offs = s.hdr.tail_lut_offs))
    (hf : fileLookup s.files (cname (s.lut s.hdr.head_lut_offs)) =
      some content) :
    ringDequeue s cap =
      { status := CODE_STATUS_OK
        dataOut := content.take cap
        sizeOut := 0
        state :=
          { hdr := { s.hdr with
              seek_lut_offs :=
                if s.hdr.seek_lut_offs = s.hdr.head_lut_offs then
                  (s.hdr.seek_lut_offs + 1) % s.hdr.max_entries
                else s.hdr.seek_lut_offs
              head_lut_offs :=
                (s.hdr.head_lut_offs + 1) % s.hdr.max_entries
              num_of_entries := (s.hdr.num_of_entries + 255) % 256 }
            lut := lutWrite s.lut s.hdr.head_lut_offs zeroTag
            files := fileDelete s.files
              (cname (s.lut s.hdr.head_lut_offs)) } } := by
  simp only [ringDequeue]
  rw [if_neg hc, hf]
  simp

/-- Evaluation of ringDequeue when the head payload file is missing. -/
theorem ringDequeue_missing_eq (s : QueueState) (cap : Nat)
    (hc : ¬ (s.hdr.num_of_entries = 0 ∧
      s.hdr.head_lut_offs = s.hdr.tail_lut_offs))
    (hf : fileLookup s.files (cname (s.lut s.hdr.head_lut_offs)) = none) :
    ringDequeue s cap =
      { status := CODE_ERROR_FS_ACCESS_FAIL, dataOut := [], sizeOut := cap,
        state := s } := by
  simp only [ringDequeue]
  rw [if_neg hc, hf]

/-- The invariant holds for a freshly created queue. -/
theorem Inv_freshQueue (N mes flags : Nat) (h1 : 1 ≤ N) (h2 : N ≤ 255) :
    Inv (freshQueue N mes flags) N 0 [] := by
  refine ⟨h1, h2, rfl, rfl, by simp, by simp, by simp [freshQueue],
    by simp [freshQueue], h1, by simp [freshQueue], ?_, ?_, ?_, ?_⟩
  · intro m hm
    simp at hm
  · intro t ht _h
    rfl
  · intro m hm
    simp at hm
  · intro kv hkv
    simp [freshQueue] at hkv

/-- Indexing the tail of a list. -/
theorem tail_getElem? (l : List Bytes) (m : Nat) : l.tail[m]? = l[m + 1]? := by
  cases l with
  | nil => simp
  | cons q qs => simp

/-- The invariant is preserved by the ring-level enqueue: the new live list
appends the payload, dropping the overwritten head when the queue was full. -/
theorem Inv_ringEnqueue {s : QueueState} {N j : Nat} {live : List Bytes}
    (hInv : Inv s N j live) (p : Bytes) :
    Inv (ringEnqueue s p) N (j + 1)
      (if live.length = N then live.tail ++ [p] else live ++ [p]) := by
  obtain ⟨hN1, hN255, hme, hn, hlen, hjn, hrc, hhead, htlt, htail, hlut,
    hdead, hfiles, hkeys⟩ := hInv
  by_cases hfull : live.length = N
  · -- the queue is full: the overwrite branch runs
    rw [if_pos hfull]
    have hjN : N ≤ j := hfull ▸ hjn
    have hj0 : j ≠ 0 := by omega
    rw [if_neg hj0] at htail
    have hlive' : (live.tail ++ [p]).length = N := by
      simp [List.length_tail]
      omega
    have hheadj : s.hdr.head_lut_offs = j % N := by
      rw [hhead, hfull]
      conv_rhs => rw [show j = j - N + N by omega]
      rw [Nat.add_mod_right]
    have hc1 : ¬ (s.hdr.num_of_entries = 0 ∧
        s.hdr.head_lut_offs = s.hdr.tail_lut_offs) := by
      rw [hn, hfull]
      intro hx
      omega
    have hc2 : s.hdr.num_of_entries = s.hdr.max_entries ∧
        ((s.hdr.head_lut_offs = 0 ∧
          s.hdr.tail_lut_offs = s.hdr.max_entries - 1) ∨
         (0 < s.hdr.head_lut_offs ∧
          s.hdr.tail_lut_offs = s.hdr.head_lut_offs - 1)) := by
      refine ⟨by rw [hn, hfull, hme], ?_⟩
      rcases Nat.lt_or_ge s.hdr.tail_lut_offs (N - 1) with htl | htl
      · have h5 : (s.hdr.tail_lut_offs + 1) % N = s.hdr.tail_lut_offs + 1 :=
          Nat.mod_eq_of_lt (by omega)
        rw [h5] at htail
        right
        constructor
        · rw [hheadj, ← htail]
          omega
        · rw [hheadj, ← htail]
          omega
      · have htl' : s.hdr.tail_lut_offs = N - 1 := by omega
        left
        refine ⟨?_, by rw [hme, htl']⟩
        rw [htl', show N - 1 + 1 = N by omega, Nat.mod_self] at htail
        rw [hheadj, ← htail]
    rw [ringEnqueue_full_eq s p hc1 hc2]
    have htail1 : (s.hdr.tail_lut_offs + 1) % s.hdr.max_entries = j % N := by
      rw [hme]
      exact htail
    refine ⟨hN1, hN255, hme, ?_, ?_, ?_, ?_, ?_, ?_, ?_, ?_, ?_, ?_, ?_⟩
    · dsimp only
      rw [hn, hfull, hlive']
    · rw [hlive']
    · rw [hlive']
      omega
    · dsimp only
      rw [hrc, Nat.mod_add_mod]
    · dsimp only
      rw [hlive', hme, hheadj, Nat.mod_add_mod]
      conv_rhs => rw [show j + 1 - N = j + 1 - N from rfl]
      conv_lhs => rw [show j + 1 = (j + 1 - N) + N by omega]
      rw [Nat.add_mod_right]
    · dsimp only
      rw [hme]
      exact Nat.mod_lt _ (by omega)
    · dsimp only
      rw [if_neg (by omega : ¬ j + 1 = 0)]
      rw [hme, Nat.mod_add_mod, ← Nat.mod_add_mod, htail, Nat.mod_add_mod]
    · -- hlut
      simp only [hlive']
      intro m hm
      by_cases hmN : m = N - 1
      · have harg : j + 1 - N + m = j := by omega
        have harg2 : j + 1 - N + 1 + m = j + 1 := by omega
        rw [harg, harg2, show j % N = (s.hdr.tail_lut_offs + 1) %
          s.hdr.max_entries from htail1.symm, lutWrite_self, hrc,
          Nat.mod_add_mod]
      · have hne1 : (j + 1 - N + m) % N ≠
            (s.hdr.tail_lut_offs + 1) % s.hdr.max_entries := by
          rw [htail1]
          intro hx
          have := mod_inj_of_lt (show j + 1 - N + m ≤ j by omega)
            (show j - (j + 1 - N + m) < N by omega) hx.symm
          omega
        rw [lutWrite_ne _ _ _ hne1]
        have hne2 : (j + 1 - N + m) % N ≠ s.hdr.head_lut_offs := by
          rw [hhead, hfull]
          intro hx
          have := mod_inj_of_lt (show j - N ≤ j + 1 - N + m by omega)
            (show j + 1 - N + m - (j - N) < N by omega) hx
          omega
        rw [lutWrite_ne _ _ _ hne2]
        have hold := hlut (m + 1) (by omega)
        rw [hfull] at hold
        rw [show j + 1 - N + m = j - N + (m + 1) by omega,
          show j + 1 - N + 1 + m = j - N + 1 + (m + 1) by omega]
        exact hold
    · -- hdead: with a full queue every slot is live
      simp only [hlive']
      intro t ht hmiss
      exfalso
      obtain ⟨m, hm, hhit⟩ := exists_window_hit N (j + 1 - N) t (by omega) ht
      exact hmiss m hm hhit.symm
    · -- hfiles
      simp only [hlive']
      intro m hm
      have hlt : live.tail.length = N - 1 := by
        rw [List.length_tail, hfull]
      by_cases hmN : m = N - 1
      · have harg2 : j + 1 - N + 1 + m = j + 1 := by omega
        rw [harg2, show (j + 1) % 65536 = (s.hdr.reference_count + 1) % 65536
          by rw [hrc, Nat.mod_add_mod], fileLookup_write_self, hmN, ← hlt,
          List.getElem?_concat_length]
      · have hmlt : m < N - 1 := by omega
        have hne3 : cname (tagOfRef ((j + 1 - N + 1 + m) % 65536)) ≠
            cname (tagOfRef ((s.hdr.reference_count + 1) % 65536)) := by
          rw [hrc, Nat.mod_add_mod, cname_tagOfRef, cname_tagOfRef]
          exact Ne.symm (tagOfRef_window_ne (by omega) (by omega))
        rw [fileLookup_write_ne _ _ hne3]
        have hold := hfiles (m + 1) (by omega)
        rw [hfull] at hold
        rw [show j + 1 - N + 1 + m = j - N + 1 + (m + 1) by omega, hold,
          List.getElem?_append_left (by omega), tail_getElem?]
    · -- hkeys
      intro kv hkv
      rcases mem_fileWrite hkv with hkv1 | hkv1
      · rw [hkv1]
        exact cname_tagOfRef_ne_nil _
      · exact hkeys kv hkv1
  · -- the queue is not full
    rw [if_neg hfull]
    have hnN : live.length < N := by omega
    have hlive' : (live ++ [p]).length = live.length + 1 := by simp
    by_cases hempty : s.hdr.num_of_entries = 0 ∧
        s.hdr.head_lut_offs = s.hdr.tail_lut_offs
    · -- the empty branch runs; it requires j = 0 or N = 1
      have hn0 : live.length = 0 := by rw [← hn]; exact hempty.1
      have hlive0 : live = [] := List.length_eq_zero.mp hn0
      subst hlive0
      have hj0N1 : j = 0 ∨ N = 1 := by
        by_cases hj0 : j = 0
        · exact Or.inl hj0
        · rw [if_neg hj0] at htail
          rw [hhead] at hempty
          simp only [List.length_nil, Nat.sub_zero] at hempty
          right
          by_cases htlN : s.hdr.tail_lut_offs = N - 1
          · rw [htlN, show N - 1 + 1 = N by omega, Nat.mod_self] at htail
            have hjN0 : j % N = 0 := htail.symm
            rw [hjN0] at hempty
            omega
          · rw [Nat.mod_eq_of_lt (by omega)] at htail
            rw [← htail] at hempty
            have : s.hdr.tail_lut_offs + 1 ≤ N - 1 := by
              rcases Nat.lt_or_ge (s.hdr.tail_lut_offs + 1) N with hx | hx
              · omega
              · omega
            omega
      rw [ringEnqueue_empty_eq s p hempty]
      have htail0 : s.hdr.tail_lut_offs = j % N := by
        rcases hj0N1 with hj0 | hN1
        · rw [if_pos hj0] at htail
          rw [htail, hj0, Nat.zero_mod]
        · rw [hN1]
          omega
      refine ⟨hN1, hN255, hme, ?_, ?_, ?_, ?_, ?_, ?_, ?_, ?_, ?_, ?_, ?_⟩
      · dsimp only
        rw [hempty.1]
        simp
      · simp
        omega
      · simp
      · dsimp only
        rw [hrc, Nat.mod_add_mod]
      · dsimp only
        simp only [List.length_append, List.length_nil, List.length_cons]
        rw [hhead]
        simp
      · exact htlt
      · dsimp only
        rw [if_neg (by omega : ¬ j + 1 = 0), htail0, Nat.mod_add_mod]
      · -- hlut: the single new entry sits at the old tail offset
        intro m hm
        simp only [List.nil_append, List.length_cons, List.length_nil] at hm
        have hm0 : m = 0 := by omega
        subst hm0
        dsimp only
        simp only [List.nil_append, List.length_cons, List.length_nil]
        rw [show j + 1 - 1 + 0 = j by omega, show j + 1 - 1 + 1 + 0 = j + 1
          by omega, show j % N = s.hdr.tail_lut_offs from htail0.symm,
          lutWrite_self, hrc, Nat.mod_add_mod]
      · -- hdead
        intro t ht hmiss
        dsimp only
        simp only [List.nil_append, List.length_cons, List.length_nil] at hmiss
        have hmiss0 := hmiss 0 (by omega)
        rw [show j + 1 - 1 + 0 = j by omega] at hmiss0
        rw [lutWrite_ne _ _ _ (by rw [htail0]; exact hmiss0)]
        exact hdead t ht (by intro m hm; omega)
      · -- hfiles
        intro m hm
        simp only [List.nil_append, List.length_cons, List.length_nil] at hm
        have hm0 : m = 0 := by omega
        subst hm0
        dsimp only
        simp only [List.nil_append, List.length_cons, List.length_nil]
        rw [show j + 1 - 1 + 1 + 0 = j + 1 by omega,
          show (j + 1) % 65536 = (s.hdr.reference_count + 1) % 65536
            by rw [hrc, Nat.mod_add_mod], fileLookup_write_self]
        rfl
      · intro kv hkv
        rcases mem_fileWrite hkv with hkv1 | hkv1
        · rw [hkv1]
          exact cname_tagOfRef_ne_nil _
        · exact hkeys kv hkv1
    · -- the append branch runs
      have hj1 : 1 ≤ j := by
        by_contra hx
        have hj0 : j = 0 := by omega
        have hn0 : live.length = 0 := by omega
        apply hempty
        constructor
        · rw [hn, hn0]
        · rw [if_pos hj0] at htail
          rw [hhead, htail, hj0]
          simp
      rw [if_neg (show ¬ j = 0 by omega)] at htail
      have hc2 : ¬ (s.hdr.num_of_entries = s.hdr.max_entries ∧
          ((s.hdr.head_lut_offs = 0 ∧
            s.hdr.tail_lut_offs = s.hdr.max_entries - 1) ∨
           (0 < s.hdr.head_lut_offs ∧
            s.hdr.tail_lut_offs = s.hdr.head_lut_offs - 1))) := by
        intro hx
        rw [hn, hme] at hx
        exact hfull hx.1
      rw [ringEnqueue_else_eq s p hempty hc2]
      have htail1 : (s.hdr.tail_lut_offs + 1) % s.hdr.max_entries =
          j % N := by
        rw [hme]
        exact htail
      refine ⟨hN1, hN255, hme, ?_, ?_, ?_, ?_, ?_, ?_, ?_, ?_, ?_, ?_, ?_⟩
      · dsimp only
        rw [hlive', hn]
        omega
      · rw [hlive']
        omega
      · rw [hlive']
        omega
      · dsimp only
        rw [hrc, Nat.mod_add_mod]
      · dsimp only
        rw [hlive', hhead]
        congr 1
        omega
      · dsimp only
        rw [hme]
        exact Nat.mod_lt _ (by omega)
      · dsimp only
        rw [if_neg (by omega : ¬ j + 1 = 0)]
        rw [hme, Nat.mod_add_mod, ← Nat.mod_add_mod, htail, Nat.mod_add_mod]
      · -- hlut
        simp only [hlive']
        intro m hm
        by_cases hmn : m = live.length
        · have harg : j + 1 - (live.length + 1) + m = j := by omega
          have harg2 : j + 1 - (live.length + 1) + 1 + m = j + 1 := by omega
          rw [harg, harg2, show j % N = (s.hdr.tail_lut_offs + 1) %
            s.hdr.max_entries from htail1.symm, lutWrite_self, hrc,
            Nat.mod_add_mod]
        · have hmlt : m < live.length := by omega
          have hne1 : (j + 1 - (live.length + 1) + m) % N ≠
              (s.hdr.tail_lut_offs + 1) % s.hdr.max_entries := by
            rw [htail1]
            intro hx
            have := mod_inj_of_lt
              (show j - live.length + m ≤ j by omega)
              (show j - (j - live.length + m) < N by omega)
              (by rw [show j - live.length + m =
                j + 1 - (live.length + 1) + m by omega]; exact hx.symm)
            omega
          rw [lutWrite_ne _ _ _ hne1]
          have hold := hlut m (by omega)
          rw [show j + 1 - (live.length + 1) + m = j - live.length + m
            by omega, show j + 1 - (live.length + 1) + 1 + m =
            j - live.length + 1 + m by omega]
          exact hold
      · -- hdead
        simp only [hlive']
        intro t ht hmiss
        have hmissn := hmiss live.length (by omega)
        rw [show j + 1 - (live.length + 1) + live.length = j by omega]
          at hmissn
        rw [lutWrite_ne _ _ _ (by rw [htail1]; exact hmissn)]
        apply hdead t ht
        intro m hm
        have := hmiss m (by omega)
        rw [show j + 1 - (live.length + 1) + m = j - live.length + m
          by omega] at this
        exact this
      · -- hfiles
        simp only [hlive']
        intro m hm
        by_cases hmn : m = live.length
        · have harg2 : j + 1 - (live.length + 1) + 1 + m = j + 1 := by omega
          rw [harg2, show (j + 1) % 65536 =
            (s.hdr.reference_count + 1) % 65536 by rw [hrc, Nat.mod_add_mod],
            fileLookup_write_self, hmn, List.getElem?_concat_length]
        · have hmlt : m < live.length := by omega
          have hne3 : cname (tagOfRef ((j + 1 - (live.length + 1) + 1 + m) %
              65536)) ≠ cname (tagOfRef ((s.hdr.reference_count + 1) %
              65536)) := by
            rw [hrc, Nat.mod_add_mod, cname_tagOfRef, cname_tagOfRef]
            exact Ne.symm (tagOfRef_window_ne (by omega) (by omega))
          rw [fileLookup_write_ne _ _ hne3]
          have hold := hfiles m (by omega)
          rw [show j + 1 - (live.length + 1) + 1 + m =
            j - live.length + 1 + m by omega, hold,
            List.getElem?_append_left (by omega)]
      · intro kv hkv
        rcases mem_fileWrite hkv with hkv1 | hkv1
        · rw [hkv1]
          exact cname_tagOfRef_ne_nil _
        · exact hkeys kv hkv1

/-- The invariant is preserved by the ring-level dequeue on a non-empty
queue: the call succeeds, copies the oldest payload (clipped to the caller's
capacity) into the data buffer, stores 0 through the size pointer, and the
remaining live list drops the head. -/
theorem Inv_ringDequeue {s : QueueState} {N j : Nat} {p : Bytes}
    {rest : List Bytes} (hInv : Inv s N j (p :: rest)) (cap : Nat) :
    (ringDequeue s cap).status = CODE_STATUS_OK ∧
    (ringDequeue s cap).dataOut = p.take cap ∧
    (ringDequeue s cap).sizeOut = 0 ∧
    Inv (ringDequeue s cap).state N j rest := by
  obtain ⟨hN1, hN255, hme, hn, hlen, hjn, hrc, hhead, htlt, htail, hlut,
    hdead, hfiles, hkeys⟩ := hInv
  simp only [List.length_cons] at hn hlen hjn hhead hlut hdead hfiles
  have hc : ¬ (s.hdr.num_of_entries = 0 ∧
      s.hdr.head_lut_offs = s.hdr.tail_lut_offs) := by
    rw [hn]
    intro hx
    omega
  have hl0 := hlut 0 (by omega)
  have hf0 := hfiles 0 (by omega)
  simp only [Nat.add_zero] at hl0 hf0
  have hfname : fileLookup s.files (cname (s.lut s.hdr.head_lut_offs)) =
      some p := by
    rw [hhead, hl0, hf0]
    simp
  rw [ringDequeue_found_eq s cap p hc hfname]
  refine ⟨rfl, rfl, rfl, hN1, hN255, hme, ?_, ?_, ?_, hrc, ?_, htlt, htail,
    ?_, ?_, ?_, ?_⟩
  · dsimp only
    rw [hn]
    omega
  · omega
  · omega
  · dsimp only
    rw [hme, hhead, Nat.mod_add_mod]
    congr 1
    omega
  · -- hlut
    intro m hm
    dsimp only
    have hne1 : (j - rest.length + m) % N ≠ s.hdr.head_lut_offs := by
      rw [hhead]
      intro hx
      have := mod_inj_of_lt
        (show j - (rest.length + 1) ≤ j - rest.length + m by omega)
        (show j - rest.length + m - (j - (rest.length + 1)) < N by omega)
        hx
      omega
    rw [lutWrite_ne _ _ _ hne1]
    have hold := hlut (m + 1) (by omega)
    rw [show j - rest.length + m = j - (rest.length + 1) + (m + 1) by omega,
      show j - rest.length + 1 + m = j - (rest.length + 1) + 1 + (m + 1)
        by omega]
    exact hold
  · -- hdead
    intro t ht hmiss
    dsimp only
    by_cases hth : t = s.hdr.head_lut_offs
    · rw [hth, lutWrite_self]
    · rw [lutWrite_ne _ _ _ hth]
      apply hdead t ht
      intro m hm
      rcases Nat.eq_zero_or_pos m with hm0 | hm1
      · subst hm0
        rw [Nat.add_zero, ← hhead]
        exact hth
      · have := hmiss (m - 1) (by omega)
        rw [show j - rest.length + (m - 1) =
          j - (rest.length + 1) + m by omega] at this
        exact this
  · -- hfiles
    intro m hm
    dsimp only
    have hkey : cname (s.lut s.hdr.head_lut_offs) =
        cname (tagOfRef ((j - (rest.length + 1) + 1) % 65536)) := by
      rw [hhead, hl0]
    rw [hkey]
    have hne3 : cname (tagOfRef ((j - rest.length + 1 + m) % 65536)) ≠
        cname (tagOfRef ((j - (rest.length + 1) + 1) % 65536)) := by
      rw [cname_tagOfRef, cname_tagOfRef]
      exact tagOfRef_window_ne (by omega) (by omega)
    rw [fileLookup_delete_ne _ hne3]
    have hold := hfiles (m + 1) (by omega)
    rw [show j - rest.length + 1 + m = j - (rest.length + 1) + 1 + (m + 1)
      by omega]
    rw [hold]
    simp
  · -- hkeys
    intro kv hkv
    exact hkeys kv (mem_fileDelete hkv)

/-- A ring-level dequeue of a queue with no live entry leaves the state
unchanged (it returns QUEUE_IS_EMPTY, or FS_ACCESS_FAIL when the stale tail
makes the source's empty test fail and the zero slot yields an empty file
name that opens no file). -/
theorem ringDequeue_nil_state {s : QueueState} {N j : Nat}
    (hInv : Inv s N j []) (cap : Nat) : (ringDequeue s cap).state = s := by
  obtain ⟨hN1, hN255, hme, hn, hlen, hjn, hrc, hhead, htlt, htail, hlut,
    hdead, hfiles, hkeys⟩ := hInv
  by_cases hht : s.hdr.head_lut_offs = s.hdr.tail_lut_offs
  · have hc : s.hdr.num_of_entries = 0 ∧
        s.hdr.head_lut_offs = s.hdr.tail_lut_offs := ⟨by rw [hn]; rfl, hht⟩
    simp only [ringDequeue]
    rw [if_pos hc]
  · have hc : ¬ (s.hdr.num_of_entries = 0 ∧
        s.hdr.head_lut_offs = s.hdr.tail_lut_offs) := fun hx => hht hx.2
    have hzero : s.lut s.hdr.head_lut_offs = zeroTag := by
      apply hdead
      · rw [hhead]
        exact Nat.mod_lt _ (by omega)
      · intro m hm
        simp at hm
    have hmiss : fileLookup s.files (cname (s.lut s.hdr.head_lut_offs)) =
        none := by
      rw [hzero, cname_zeroTag]
      exact fileLookup_none_of_keys s.files [] hkeys
    rw [ringDequeue_missing_eq s cap hc hmiss]

/-- The invariant does not mention the seek offset, so any seek update
preserves it. -/
theorem Inv_seekUpdate {s : QueueState} {N j : Nat} {live : List Bytes}
    (hInv : Inv s N j live) (x : Nat) :
    Inv { s with hdr := { s.hdr with seek_lut_offs := x } } N j live := by
  obtain ⟨hN1, hN255, hme, hn, hlen, hjn, hrc, hhead, htlt, htail, hlut,
    hdead, hfiles, hkeys⟩ := hInv
  exact ⟨hN1, hN255, hme, hn, hlen, hjn, hrc, hhead, htlt, htail, hlut,
    hdead, hfiles, hkeys⟩

/-- The invariant is preserved by the ring-level seek. -/
theorem Inv_ringSeek {s : QueueState} {N j : Nat} {live : List Bytes}
    (hInv : Inv s N j live) (t : Nat) (pos : Int) :
    Inv (ringSeek s t pos).2 N j live := by
  unfold ringSeek
  dsimp only
  repeat' split
  all_goals first
    | exact hInv
    | exact Inv_seekUpdate hInv _

/-- The invariant is preserved by the ring-level get-entry. -/
theorem Inv_ringGetEntry {s : QueueState} {N j : Nat} {live : List Bytes}
    (hInv : Inv s N j live) (cap g : Nat) :
    Inv (ringGetEntry s cap g).2.2 N j live := by
  unfold ringGetEntry
  dsimp only
  repeat' split
  all_goals first
    | exact hInv
    | exact Inv_seekUpdate hInv _

/-- Any operation sequence keeps the state within the invariant, and every
live payload is one of the enqueued payloads. -/
theorem Inv_runOps {N : Nat} :
    ∀ (ops : List DataQ_Op) {s : QueueState} {j : Nat} {live : List Bytes},
    Inv s N j live →
    ∃ j' live', Inv (runOps s ops) N j' live' ∧
      ∀ b ∈ live', b ∈ live ∨ b ∈ enqPayloads ops := by
  intro ops
  induction ops with
  | nil =>
    intro s j live h
    exact ⟨j, live, h, fun b hb => Or.inl hb⟩
  | cons op rest ih =>
    intro s j live h
    cases op with
    | enq p =>
      obtain ⟨j', live', hInv', hmem⟩ := ih (Inv_ringEnqueue h p)
      refine ⟨j', live', hInv', ?_⟩
      intro b hb
      rcases hmem b hb with hb1 | hb1
      · by_cases hf : live.length = N
        · rw [if_pos hf] at hb1
          rcases List.mem_append.mp hb1 with h2 | h2
          · exact Or.inl (List.mem_of_mem_tail h2)
          · simp only [List.mem_singleton] at h2
            subst h2
            exact Or.inr (by simp [enqPayloads])
        · rw [if_neg hf] at hb1
          rcases List.mem_append.mp hb1 with h2 | h2
          · exact Or.inl h2
          · simp only [List.mem_singleton] at h2
            subst h2
            exact Or.inr (by simp [enqPayloads])
      · refine Or.inr ?_
        simp only [enqPayloads, List.filterMap_cons] at hb1 ⊢
        exact List.mem_cons_of_mem _ hb1
    | deq cap =>
      cases live with
      | nil =>
        have heq := ringDequeue_nil_state h cap
        simp only [runOps, applyOp]
        rw [heq]
        obtain ⟨j', live', hInv', hmem⟩ := ih h
        refine ⟨j', live', hInv', ?_⟩
        intro b hb
        rcases hmem b hb with hb1 | hb1
        · exact Or.inl hb1
        · refine Or.inr ?_
          simpa [enqPayloads] using hb1
      | cons q qs =>
        obtain ⟨j', live', hInv', hmem⟩ := ih (Inv_ringDequeue h cap).2.2.2
        refine ⟨j', live', hInv', ?_⟩
        intro b hb
        rcases hmem b hb with hb1 | hb1
        · exact Or.inl (List.mem_cons_of_mem _ hb1)
        · refine Or.inr ?_
          simpa [enqPayloads] using hb1
    | seekTo t pos =>
      obtain ⟨j', live', hInv', hmem⟩ := ih (Inv_ringSeek h t pos)
      refine ⟨j', live', hInv', ?_⟩
      intro b hb
      rcases hmem b hb with hb1 | hb1
      · exact Or.inl hb1
      · refine Or.inr ?_
        simpa [enqPayloads] using hb1
    | getE cap g =>
      obtain ⟨j', live', hInv', hmem⟩ := ih (Inv_ringGetEntry h cap g)
      refine ⟨j', live', hInv', ?_⟩
      intro b hb
      rcases hmem b hb with hb1 | hb1
      · exact Or.inl hb1
      · refine Or.inr ?_
        simpa [enqPayloads] using hb1

/-- C8 amended: after any operation sequence on a freshly created queue,
every live LUT slot's tag names an existing payload file whose content is
one of the enqueued payloads.  (The max_entry_size bound of the original
claim is dropped: Enqueue never checks it, see C8_counterexample.) -/
theorem C8_live_payload_files (N mes flags : Nat) (h1 : 1 ≤ N)
    (h2 : N ≤ 255) (ops : List DataQ_Op) :
    ∀ m, m < (runOps (freshQueue N mes flags) ops).hdr.num_of_entries →
    ∃ content,
      fileLookup (runOps (freshQueue N mes flags) ops).files
        (cname ((runOps (freshQueue N mes flags) ops).lut
          (((runOps (freshQueue N mes flags) ops).hdr.head_lut_offs + m) %
            N))) = some content ∧
      content ∈ enqPayloads ops := by
  obtain ⟨j', live', hInv, hmem⟩ :=
    Inv_runOps ops (Inv_freshQueue N mes flags h1 h2)
  intro m hm
  obtain ⟨hN1, hN255, hme, hn, hlen, hjn, hrc, hhead, htlt, htail, hlut,
    hdead, hfiles, hkeys⟩ := hInv
  rw [hn] at hm
  have hslot : ((runOps (freshQueue N mes flags) ops).hdr.head_lut_offs + m)
      % N = (j' - live'.length + m) % N := by
    rw [hhead, Nat.mod_add_mod]
  rw [hslot, hlut m hm, hfiles m hm, List.getElem?_eq_getElem hm]
  refine ⟨live'[m], rfl, ?_⟩
  rcases hmem live'[m] (List.getElem_mem hm) with hb | hb
  · simp at hb
  · exact hb

/-- Witness for C8_live_payload_files: capacity 1, one oversized enqueue. -/
theorem C8_live_payload_files_witness :
    (1 ≤ 1 ∧ 1 ≤ 255) ∧
    (∀ m, m < (runOps (freshQueue 1 4 0)
        [DataQ_Op.enq [1, 2, 3, 4, 5]]).hdr.num_of_entries →
      ∃ content,
        fileLookup (runOps (freshQueue 1 4 0)
            [DataQ_Op.enq [1, 2, 3, 4, 5]]).files
          (cname ((runOps (freshQueue 1 4 0)
              [DataQ_Op.enq [1, 2, 3, 4, 5]]).lut
            (((runOps (freshQueue 1 4 0)
                [DataQ_Op.enq [1, 2, 3, 4, 5]]).hdr.head_lut_offs + m) %
              1))) = some content ∧
        content ∈ enqPayloads [DataQ_Op.enq [1, 2, 3, 4, 5]]) :=
  ⟨by decide,
   C8_live_payload_files 1 4 0 (by decide) (by decide)
     [DataQ_Op.enq [1, 2, 3, 4, 5]]⟩

/-! Operation-level bridging: under a write-capable handle, an existing
directory and a writer lock, the operation wrappers reduce to the ring-level
bodies. -/

theorem DataQ_FifoEnqueue_nominal (tbl : HandleTable) (env : FsEnv)
    (i : Fin 10) (q : QueueState) (p : Bytes) (hp : p ≠ [])
    (hacc : (tbl.getD i.val slotInvalid).access = ACCESS_TYPE_WRITE_ONLY ∨
      (tbl.getD i.val slotInvalid).access = ACCESS_TYPE_READ_WRITE)
    (hdir : env.dirExists = true)
    (hlock : env.wolock = true ∨ env.rwlock = true) :
    DataQ_FifoEnqueue tbl env (some i) q p =
      (CODE_STATUS_OK, ringEnqueue q p) := by
  simp only [DataQ_FifoEnqueue]
  rw [if_neg (by simp [hp])]
  rw [if_neg (by push_neg; intro _; rcases hacc with h | h <;> omega)]
  rw [if_neg (by simp [hdir])]
  rw [if_neg (by rcases hlock with h | h <;> simp [h])]

theorem DataQ_FifoDequeue_nominal (tbl : HandleTable) (env : FsEnv)
    (i : Fin 10) (q : QueueState) (cap : Nat)
    (hacc : (tbl.getD i.val slotInvalid).access = ACCESS_TYPE_WRITE_ONLY ∨
      (tbl.getD i.val slotInvalid).access = ACCESS_TYPE_READ_WRITE)
    (hdir : env.dirExists = true)
    (hlock : env.wolock = true ∨ env.rwlock = true) :
    DataQ_FifoDequeue tbl env (some i) q cap =
      ((ringDequeue q cap).status, (ringDequeue q cap).dataOut,
       (ringDequeue q cap).sizeOut, (ringDequeue q cap).state) := by
  simp only [DataQ_FifoDequeue]
  rw [if_neg (by push_neg; intro _; rcases hacc with h | h <;> omega)]
  rw [if_neg (by simp [hdir])]
  rw [if_neg (by rcases hlock with h | h <;> simp [h])]

/-! The last-N window of the enqueued payload sequence. -/

theorem windowStep {live : List Bytes} (p : Bytes) {N : Nat}
    (hlen : live.length ≤ N) (hN : 1 ≤ N) :
    (if live.length = N then live.tail ++ [p] else live ++ [p]) =
      (live ++ [p]).drop ((live ++ [p]).length - N) := by
  by_cases hf : live.length = N
  · rw [if_pos hf]
    have h1 : (live ++ [p]).length - N = 1 := by
      simp
      omega
    rw [h1, List.drop_append_of_le_length (by omega), List.drop_one]
  · rw [if_neg hf]
    have h1 : (live ++ [p]).length - N = 0 := by
      simp
      omega
    rw [h1, List.drop_zero]

theorem window_absorb (a rest : List Bytes) (N : Nat) :
    (a.drop (a.length - N) ++ rest).drop
      ((a.drop (a.length - N) ++ rest).length - N) =
      (a ++ rest).drop ((a ++ rest).length - N) := by
  by_cases ha : N ≤ a.length
  · rw [show a.drop (a.length - N) ++ rest =
      (a ++ rest).drop (a.length - N) from
      (List.drop_append_of_le_length (by omega)).symm]
    rw [List.drop_drop]
    congr 1
    simp only [List.length_drop, List.length_append]
    omega
  · have h1 : a.length - N = 0 := by omega
    rw [h1, List.drop_zero]

/-- A run of successful operation-level enqueues: every call returns
CODE_STATUS_OK and the final state satisfies the invariant with the last-N
window of all payloads ever enqueued as its live list. -/
theorem enqRun_spec (tbl : HandleTable) (env : FsEnv) (i : Fin 10)
    (hacc : (tbl.getD i.val slotInvalid).access = ACCESS_TYPE_WRITE_ONLY ∨
      (tbl.getD i.val slotInvalid).access = ACCESS_TYPE_READ_WRITE)
    (hdir : env.dirExists = true)
    (hlock : env.wolock = true ∨ env.rwlock = true) :
    ∀ (ps : List Bytes) {q : QueueState} {N j : Nat} {live : List Bytes},
    Inv q N j live → (∀ p ∈ ps, p ≠ []) →
    (enqRun tbl env (some i) q ps).1 =
      List.replicate ps.length CODE_STATUS_OK ∧
    Inv (enqRun tbl env (some i) q ps).2 N (j + ps.length)
      ((live ++ ps).drop ((live ++ ps).length - N)) := by
  intro ps
  induction ps with
  | nil =>
    intro q N j live hInv hps
    refine ⟨rfl, ?_⟩
    simp only [enqRun, List.append_nil, List.length_nil, Nat.add_zero]
    rw [show live.length - N = 0 by have := hInv.hlen; omega, List.drop_zero]
    exact hInv
  | cons p ps ih =>
    intro q N j live hInv hps
    have hp : p ≠ [] := hps p (by simp)
    obtain ⟨ih1, ih2⟩ := ih (Inv_ringEnqueue hInv p)
      (fun x hx => hps x (by simp [hx]))
    simp only [enqRun,
      DataQ_FifoEnqueue_nominal tbl env i q p hp hacc hdir hlock]
    constructor
    · simp only [List.length_cons, List.replicate_succ]
      rw [← ih1]
    · rw [show live ++ p :: ps = (live ++ [p]) ++ ps by simp]
      rw [← window_absorb (live ++ [p]) ps N]
      rw [← windowStep p hInv.hlen hInv.hN1]
      simp only [List.length_cons]
      rw [show j + (ps.length + 1) = j + 1 + ps.length by omega]
      exact ih2

/-- A run of live.length successful operation-level dequeues returns the
live payloads oldest-first, each clipped to the buffer capacity. -/
theorem deqRun_spec (tbl : HandleTable) (env : FsEnv) (i : Fin 10)
    (hacc : (tbl.getD i.val slotInvalid).access = ACCESS_TYPE_WRITE_ONLY ∨
      (tbl.getD i.val slotInvalid).access = ACCESS_TYPE_READ_WRITE)
    (hdir : env.dirExists = true)
    (hlock : env.wolock = true ∨ env.rwlock = true) :
    ∀ (live : List Bytes) {q : QueueState} {N j : Nat},
    Inv q N j live → ∀ cap : Nat,
    (deqRun tbl env (some i) q cap live.length).1 =
      live.map (fun p => (CODE_STATUS_OK, p.take cap)) := by
  intro live
  induction live with
  | nil =>
    intro q N j hInv cap
    rfl
  | cons p rest ih =>
    intro q N j hInv cap
    obtain ⟨h1, h2, _h3, h4⟩ := Inv_ringDequeue hInv cap
    simp only [List.length_cons, deqRun,
      DataQ_FifoDequeue_nominal tbl env i q cap hacc hdir hlock]
    rw [h1, h2, List.map_cons, ih h4 cap]

/-- C2: capacity-N queue, k > N nonempty payloads enqueued through the
operation layer under a write-capable open handle: every enqueue (including
each overwriting one) returns CODE_STATUS_OK, num_of_entries is N after
every prefix of at least N enqueues and stays N to the end, and N successive
dequeues with sufficient buffer capacity return exactly the last N payloads
in order. -/
theorem C2_overwrite_roundtrip (tbl : HandleTable) (env : FsEnv) (i : Fin 10)
    (N mes flags cap : Nat) (ps : List Bytes)
    (hacc : (tbl.getD i.val slotInvalid).access = ACCESS_TYPE_WRITE_ONLY ∨
      (tbl.getD i.val slotInvalid).access = ACCESS_TYPE_READ_WRITE)
    (hdir : env.dirExists = true)
    (hlock : env.wolock = true ∨ env.rwlock = true)
    (hN1 : 1 ≤ N) (hN2 : N ≤ 255) (hk : N < ps.length)
    (hps : ∀ p ∈ ps, p ≠ []) (hcap : ∀ p ∈ ps, p.length ≤ cap) :
    (enqRun tbl env (some i) (freshQueue N mes flags) ps).1 =
      List.replicate ps.length CODE_STATUS_OK ∧
    (enqRun tbl env (some i)
      (freshQueue N mes flags) ps).2.hdr.num_of_entries = N ∧
    (∀ m, N ≤ m → m ≤ ps.length →
      (enqRun tbl env (some i) (freshQueue N mes flags)
        (ps.take m)).2.hdr.num_of_entries = N) ∧
    (deqRun tbl env (some i)
        (enqRun tbl env (some i) (freshQueue N mes flags) ps).2 cap N).1 =
      (ps.drop (ps.length - N)).map (fun p => (CODE_STATUS_OK, p)) := by
  obtain ⟨hst, hInv⟩ := enqRun_spec tbl env i hacc hdir hlock ps
    (Inv_freshQueue N mes flags hN1 hN2) hps
  simp only [List.nil_append] at hInv
  have hwlen : (ps.drop (ps.length - N)).length = N := by
    rw [List.length_drop]
    omega
  refine ⟨hst, ?_, ?_, ?_⟩
  · rw [hInv.hn, hwlen]
  · intro m hm1 hm2
    obtain ⟨_, hInvm⟩ := enqRun_spec tbl env i hacc hdir hlock (ps.take m)
      (Inv_freshQueue N mes flags hN1 hN2)
      (fun x hx => hps x (List.take_subset m ps hx))
    simp only [List.nil_append] at hInvm
    rw [hInvm.hn, List.length_drop, List.length_take]
    omega
  · have hd := deqRun_spec tbl env i hacc hdir hlock
      (ps.drop (ps.length - N)) hInv cap
    rw [hwlen] at hd
    rw [hd]
    apply List.map_congr_left
    intro x hx
    rw [List.take_of_length_le (hcap x (List.drop_subset _ ps hx))]

/-- Witness for C2_overwrite_roundtrip: capacity 2, three one-byte
payloads. -/
theorem C2_overwrite_roundtrip_witness :
    (((c6_table.getD (0 : Fin 10).val slotInvalid).access =
        ACCESS_TYPE_WRITE_ONLY ∨
      (c6_table.getD (0 : Fin 10).val slotInvalid).access =
        ACCESS_TYPE_READ_WRITE) ∧
     c6_env.dirExists = true ∧
     (c6_env.wolock = true ∨ c6_env.rwlock = true) ∧
     1 ≤ 2 ∧ 2 ≤ 255 ∧ 2 < ([[1], [2], [3]] : List Bytes).length ∧
     (∀ p ∈ ([[1], [2], [3]] : List Bytes), p ≠ []) ∧
     (∀ p ∈ ([[1], [2], [3]] : List Bytes), p.length ≤ 4)) ∧
    ((enqRun c6_table c6_env (some 0) (freshQueue 2 16 0)
        [[1], [2], [3]]).1 =
      List.replicate ([[1], [2], [3]] : List Bytes).length CODE_STATUS_OK ∧
    (enqRun c6_table c6_env (some 0)
      (freshQueue 2 16 0) [[1], [2], [3]]).2.hdr.num_of_entries = 2 ∧
    (∀ m, 2 ≤ m → m ≤ ([[1], [2], [3]] : List Bytes).length →
      (enqRun c6_table c6_env (some 0) (freshQueue 2 16 0)
        (([[1], [2], [3]] : List Bytes).take m)).2.hdr.num_of_entries = 2) ∧
    (deqRun c6_table c6_env (some 0)
        (enqRun c6_table c6_env (some 0) (freshQueue 2 16 0)
          [[1], [2], [3]]).2 4 2).1 =
      (([[1], [2], [3]] : List Bytes).drop
        (([[1], [2], [3]] : List Bytes).length - 2)).map
        (fun p => (CODE_STATUS_OK, p))) :=
  ⟨⟨by decide, by decide, by decide, by decide, by decide, by decide,
    by decide, by decide⟩,
   C2_overwrite_roundtrip c6_table c6_env 0 2 16 0 4 [[1], [2], [3]]
     (by decide) (by decide) (by decide) (by decide) (by decide) (by decide)
     (by decide) (by decide)⟩

/-! Ring-level statuses never include INVALID_HANDLE. -/

theorem ringDequeue_status_ne_ih (s : QueueState) (cap : Nat) :
    (ringDequeue s cap).status ≠ CODE_ERROR_INVALID_HANDLE := by
  unfold ringDequeue
  dsimp only
  repeat' split
  all_goals simp [CODE_STATUS_OK, CODE_ERROR_INVALID_ARG, CODE_ERROR_INVALID_HANDLE, CODE_ERROR_INVALID_SEEK, CODE_ERROR_QUEUE_MISSING, CODE_ERROR_QUEUE_CLOSED, CODE_ERROR_QUEUE_IS_EMPTY, CODE_ERROR_QUEUE_READ_ONLY, CODE_ERROR_QUEUE_WRITE_ONLY, CODE_ERROR_QUEUE_NOT_SEEKABLE, CODE_ERROR_FS_ACCESS_FAIL]

theorem ringSeek_status_ne_ih (s : QueueState) (t : Nat) (pos : Int) :
    (ringSeek s t pos).1 ≠ CODE_ERROR_INVALID_HANDLE := by
  unfold ringSeek
  dsimp only
  repeat' split
  all_goals simp [CODE_STATUS_OK, CODE_ERROR_INVALID_ARG, CODE_ERROR_INVALID_HANDLE, CODE_ERROR_INVALID_SEEK, CODE_ERROR_QUEUE_MISSING, CODE_ERROR_QUEUE_CLOSED, CODE_ERROR_QUEUE_IS_EMPTY, CODE_ERROR_QUEUE_READ_ONLY, CODE_ERROR_QUEUE_WRITE_ONLY, CODE_ERROR_QUEUE_NOT_SEEKABLE, CODE_ERROR_FS_ACCESS_FAIL]

theorem ringGetEntry_status_ne_ih (s : QueueState) (cap g : Nat) :
    (ringGetEntry s cap g).1 ≠ CODE_ERROR_INVALID_HANDLE := by
  unfold ringGetEntry
  dsimp only
  repeat' split
  all_goals simp [CODE_STATUS_OK, CODE_ERROR_INVALID_ARG, CODE_ERROR_INVALID_HANDLE, CODE_ERROR_INVALID_SEEK, CODE_ERROR_QUEUE_MISSING, CODE_ERROR_QUEUE_CLOSED, CODE_ERROR_QUEUE_IS_EMPTY, CODE_ERROR_QUEUE_READ_ONLY, CODE_ERROR_QUEUE_WRITE_ONLY, CODE_ERROR_QUEUE_NOT_SEEKABLE, CODE_ERROR_FS_ACCESS_FAIL]

/-- C9 amended: Enqueue, Dequeue, Seek, GetEntry and GetLength fail with
CODE_ERROR_INVALID_HANDLE exactly when the handle pointer is not the address
of one of the process's handle-table slots; a pointer to any table slot —
live or released — passes the address scan and never produces
INVALID_HANDLE. -/
theorem C9_handle_address_scan (tbl : HandleTable) (env : FsEnv)
    (q : QueueState) (p : Bytes) (cap t g : Nat) (pos : Int) (i : Fin 10)
    (hp : p ≠ []) (ht : t < SEEK_TYPE_MAX) :
    (DataQ_FifoEnqueue tbl env none q p).1 = CODE_ERROR_INVALID_HANDLE ∧
    (DataQ_FifoDequeue tbl env none q cap).1 = CODE_ERROR_INVALID_HANDLE ∧
    (DataQ_FifoSeek tbl env none q t pos).1 = CODE_ERROR_INVALID_HANDLE ∧
    (DataQ_FifoGetEntry tbl env none q cap g).1 =
      CODE_ERROR_INVALID_HANDLE ∧
    (DataQ_FifoGetLength tbl env none q).1 = CODE_ERROR_INVALID_HANDLE ∧
    (DataQ_FifoEnqueue tbl env (some i) q p).1 ≠
      CODE_ERROR_INVALID_HANDLE ∧
    (DataQ_FifoDequeue tbl env (some i) q cap).1 ≠
      CODE_ERROR_INVALID_HANDLE ∧
    (DataQ_FifoSeek tbl env (some i) q t pos).1 ≠
      CODE_ERROR_INVALID_HANDLE ∧
    (DataQ_FifoGetEntry tbl env (some i) q cap g).1 ≠
      CODE_ERROR_INVALID_HANDLE ∧
    (DataQ_FifoGetLength tbl env (some i) q).1 ≠
      CODE_ERROR_INVALID_HANDLE := by
  refine ⟨?_, rfl, ?_, rfl, rfl, ?_, ?_, ?_, ?_, ?_⟩
  · simp [DataQ_FifoEnqueue, hp]
  · simp only [DataQ_FifoSeek]
    rw [if_neg (by omega)]
  · simp only [DataQ_FifoEnqueue]
    split
    · simp [CODE_STATUS_OK, CODE_ERROR_INVALID_ARG, CODE_ERROR_INVALID_HANDLE, CODE_ERROR_INVALID_SEEK, CODE_ERROR_QUEUE_MISSING, CODE_ERROR_QUEUE_CLOSED, CODE_ERROR_QUEUE_IS_EMPTY, CODE_ERROR_QUEUE_READ_ONLY, CODE_ERROR_QUEUE_WRITE_ONLY, CODE_ERROR_QUEUE_NOT_SEEKABLE, CODE_ERROR_FS_ACCESS_FAIL]
    · repeat' split
      all_goals simp [CODE_STATUS_OK, CODE_ERROR_INVALID_ARG, CODE_ERROR_INVALID_HANDLE, CODE_ERROR_INVALID_SEEK, CODE_ERROR_QUEUE_MISSING, CODE_ERROR_QUEUE_CLOSED, CODE_ERROR_QUEUE_IS_EMPTY, CODE_ERROR_QUEUE_READ_ONLY, CODE_ERROR_QUEUE_WRITE_ONLY, CODE_ERROR_QUEUE_NOT_SEEKABLE, CODE_ERROR_FS_ACCESS_FAIL]
  · simp only [DataQ_FifoDequeue]
    repeat' split
    all_goals first
      | exact ringDequeue_status_ne_ih q cap
      | simp [CODE_STATUS_OK, CODE_ERROR_INVALID_ARG, CODE_ERROR_INVALID_HANDLE, CODE_ERROR_INVALID_SEEK, CODE_ERROR_QUEUE_MISSING, CODE_ERROR_QUEUE_CLOSED, CODE_ERROR_QUEUE_IS_EMPTY, CODE_ERROR_QUEUE_READ_ONLY, CODE_ERROR_QUEUE_WRITE_ONLY, CODE_ERROR_QUEUE_NOT_SEEKABLE, CODE_ERROR_FS_ACCESS_FAIL]
  · simp only [DataQ_FifoSeek]
    repeat' split
    all_goals first
      | exact ringSeek_status_ne_ih q t pos
      | simp [CODE_STATUS_OK, CODE_ERROR_INVALID_ARG, CODE_ERROR_INVALID_HANDLE, CODE_ERROR_INVALID_SEEK, CODE_ERROR_QUEUE_MISSING, CODE_ERROR_QUEUE_CLOSED, CODE_ERROR_QUEUE_IS_EMPTY, CODE_ERROR_QUEUE_READ_ONLY, CODE_ERROR_QUEUE_WRITE_ONLY, CODE_ERROR_QUEUE_NOT_SEEKABLE, CODE_ERROR_FS_ACCESS_FAIL]
  · simp only [DataQ_FifoGetEntry]
    repeat' split
    all_goals first
      | exact ringGetEntry_status_ne_ih q cap g
      | simp [CODE_STATUS_OK, CODE_ERROR_INVALID_ARG, CODE_ERROR_INVALID_HANDLE, CODE_ERROR_INVALID_SEEK, CODE_ERROR_QUEUE_MISSING, CODE_ERROR_QUEUE_CLOSED, CODE_ERROR_QUEUE_IS_EMPTY, CODE_ERROR_QUEUE_READ_ONLY, CODE_ERROR_QUEUE_WRITE_ONLY, CODE_ERROR_QUEUE_NOT_SEEKABLE, CODE_ERROR_FS_ACCESS_FAIL]
  · simp only [DataQ_FifoGetLength]
    repeat' split
    all_goals simp [CODE_STATUS_OK, CODE_ERROR_INVALID_ARG, CODE_ERROR_INVALID_HANDLE, CODE_ERROR_INVALID_SEEK, CODE_ERROR_QUEUE_MISSING, CODE_ERROR_QUEUE_CLOSED, CODE_ERROR_QUEUE_IS_EMPTY, CODE_ERROR_QUEUE_READ_ONLY, CODE_ERROR_QUEUE_WRITE_ONLY, CODE_ERROR_QUEUE_NOT_SEEKABLE, CODE_ERROR_FS_ACCESS_FAIL]

/-- Witness for C9_handle_address_scan at concrete arguments. -/
theorem C9_handle_address_scan_witness :
    (([5] : Bytes) ≠ [] ∧ SEEK_TYPE_HEAD < SEEK_TYPE_MAX) ∧
    ((DataQ_FifoEnqueue freshTable c6_env none (freshQueue 2 8 0) [5]).1 =
      CODE_ERROR_INVALID_HANDLE ∧
    (DataQ_FifoDequeue freshTable c6_env none (freshQueue 2 8 0) 4).1 =
      CODE_ERROR_INVALID_HANDLE ∧
    (DataQ_FifoSeek freshTable c6_env none (freshQueue 2 8 0)
        SEEK_TYPE_HEAD 0).1 = CODE_ERROR_INVALID_HANDLE ∧
    (DataQ_FifoGetEntry freshTable c6_env none (freshQueue 2 8 0) 4 0).1 =
      CODE_ERROR_INVALID_HANDLE ∧
    (DataQ_FifoGetLength freshTable c6_env none (freshQueue 2 8 0)).1 =
      CODE_ERROR_INVALID_HANDLE ∧
    (DataQ_FifoEnqueue freshTable c6_env (some 0)
        (freshQueue 2 8 0) [5]).1 ≠ CODE_ERROR_INVALID_HANDLE ∧
    (DataQ_FifoDequeue freshTable c6_env (some 0)
        (freshQueue 2 8 0) 4).1 ≠ CODE_ERROR_INVALID_HANDLE ∧
    (DataQ_FifoSeek freshTable c6_env (some 0) (freshQueue 2 8 0)
        SEEK_TYPE_HEAD 0).1 ≠ CODE_ERROR_INVALID_HANDLE ∧
    (DataQ_FifoGetEntry freshTable c6_env (some 0)
        (freshQueue 2 8 0) 4 0).1 ≠ CODE_ERROR_INVALID_HANDLE ∧
    (DataQ_FifoGetLength freshTable c6_env (some 0)
        (freshQueue 2 8 0)).1 ≠ CODE_ERROR_INVALID_HANDLE) :=
  ⟨⟨by decide, by decide⟩,
   C9_handle_address_scan freshTable c6_env (freshQueue 2 8 0) [5] 4
     SEEK_TYPE_HEAD 0 0 0 (by decide) (by decide)⟩

end DataQueue
